import Mathlib

/-!
Shallow embedding of the c4dart translator core (src/translator.rs, src/coder.rs,
src/options.rs, src/lib.rs): a C-header to Dart FFI binding generator.

Modelling conventions:
* clang `Type` and `Entity` values are modelled as a pair of mutually inductive
  trees carrying exactly the accessors the translator reads.  An accessor that
  returns `Option` in the clang crate is an `Option` field; `get_canonical_type`
  (which is total in clang) is modelled by a `canon : Option CType` field where
  `none` means the type is its own canonical form.
* Rust panics (`unwrap` on a missing attribute) are modelled by `Option`-valued
  functions: `none` is an aborted run.
* Rust strings are modelled as `List Char` where the code inspects characters
  (comment reflow, prefix stripping) and as `String` where it only concatenates.
* `HashSet<String>` / `HashMap<String,String>` are modelled as a `List String`
  and an association `List (String × String)`; the program only uses
  `contains` / `insert` / `get`, never iteration.
* The regex name policy (`Regex::is_match`, `Regex::replace` with a template)
  is an external collaborator; `Options` carries it as two abstract functions.
* Recursive functions over `CType` take an explicit fuel argument so that every
  definition is structurally recursive and kernel-reducible; fuel is consumed
  only at the recursive calls of `translate_type` and `parse_type`.
-/

namespace C4D

/-- clang `TypeKind`, restricted to the constructors the translator inspects.
`Other s` stands for any further kind, carrying the name its Rust `Debug`
instance would print. -/
inductive TypeKind where
  | Void | Bool | SChar | CharS | UChar | Short | UShort
  | Int | UInt | Long | ULong | Float | Double
  | Pointer | Record | FunctionPrototype | FunctionNoPrototype
  | Other (s : String)
deriving DecidableEq

/-- The name the Rust `Debug` instance prints for a `TypeKind` (used by the
`format!("<unsupported_type_kind:{:?}>", kind)` placeholder). -/
def TypeKind.debugName : TypeKind → String
  | .Void => "Void"
  | .Bool => "Bool"
  | .SChar => "SChar"
  | .CharS => "CharS"
  | .UChar => "UChar"
  | .Short => "Short"
  | .UShort => "UShort"
  | .Int => "Int"
  | .UInt => "UInt"
  | .Long => "Long"
  | .ULong => "ULong"
  | .Float => "Float"
  | .Double => "Double"
  | .Pointer => "Pointer"
  | .Record => "Record"
  | .FunctionPrototype => "FunctionPrototype"
  | .FunctionNoPrototype => "FunctionNoPrototype"
  | .Other s => s

/-- clang `EntityKind`, restricted to the constructors the translator inspects. -/
inductive EntityKind where
  | FunctionDecl | EnumDecl | StructDecl | TypedefDecl
  | FieldDecl | EnumConstantDecl
  | Other (s : String)
deriving DecidableEq

mutual
/-- A clang `Type` as seen by the translator: kind, canonical type (`none` when
the type is its own canonical form), pointee type, declaration entity, result
type, argument types, record fields. -/
inductive CType where
  | mk (kind : TypeKind) (canon : Option CType) (pointee : Option CType)
       (decl : Option CEntity) (result : Option CType)
       (argTypes : Option (List CType)) (fields : Option (List CEntity)) : CType

/-- A clang `Entity` as seen by the translator: kind, name, comment, children,
result type, argument entities, type, signed enum-constant value, typedef
underlying type. -/
inductive CEntity where
  | mk (kind : EntityKind) (name : Option String) (comment : Option String)
       (children : List CEntity) (resultType : Option CType)
       (arguments : Option (List CEntity)) (typeOf : Option CType)
       (enumVal : Option Int) (underlying : Option CType) : CEntity
end

def CType.kind : CType → TypeKind
  | .mk k _ _ _ _ _ _ => k

def CType.canon : CType → Option CType
  | .mk _ c _ _ _ _ _ => c

def CType.pointee : CType → Option CType
  | .mk _ _ p _ _ _ _ => p

def CType.decl : CType → Option CEntity
  | .mk _ _ _ d _ _ _ => d

def CType.result : CType → Option CType
  | .mk _ _ _ _ r _ _ => r

def CType.argTypes : CType → Option (List CType)
  | .mk _ _ _ _ _ a _ => a

def CType.fields : CType → Option (List CEntity)
  | .mk _ _ _ _ _ _ f => f

def CEntity.kind : CEntity → EntityKind
  | .mk k _ _ _ _ _ _ _ _ => k

def CEntity.name : CEntity → Option String
  | .mk _ n _ _ _ _ _ _ _ => n

def CEntity.comment : CEntity → Option String
  | .mk _ _ c _ _ _ _ _ _ => c

def CEntity.children : CEntity → List CEntity
  | .mk _ _ _ ch _ _ _ _ _ => ch

def CEntity.resultType : CEntity → Option CType
  | .mk _ _ _ _ r _ _ _ _ => r

def CEntity.arguments : CEntity → Option (List CEntity)
  | .mk _ _ _ _ _ a _ _ _ => a

def CEntity.typeOf : CEntity → Option CType
  | .mk _ _ _ _ _ _ t _ _ => t

def CEntity.enumVal : CEntity → Option Int
  | .mk _ _ _ _ _ _ _ v _ => v

def CEntity.underlying : CEntity → Option CType
  | .mk _ _ _ _ _ _ _ _ u => u

/-- `Type::get_canonical_type`: the canonical form of a type (the type itself
when it is already canonical). -/
def canonicalType (t : CType) : CType :=
  match t.canon with
  | some c => c
  | none => t

/-- `cffi_type` (translator.rs): the native fixed-width Dart FFI type for a
scalar kind. -/
def cffi_type (k : TypeKind) : Option String :=
  match k with
  | .Void => some ("Void")
  | .Bool => some ("Uint8")
  | .SChar => some ("Int8")
  | .CharS => some ("Int8")
  | .UChar => some ("Uint8")
  | .Short => some ("Int16")
  | .UShort => some ("Uint16")
  | .Int => some ("Int32")
  | .UInt => some ("Uint32")
  | .Long => some ("Int64")
  | .ULong => some ("Uint64")
  | .Float => some ("Float")
  | .Double => some ("Double")
  | _ => none

/-- `dart_type` (translator.rs): the logical Dart type for a scalar kind. -/
def dart_type (k : TypeKind) : Option String :=
  match k with
  | .Void => some ("void")
  | .Bool | .SChar | .CharS | .UChar | .Short | .UShort
  | .Int | .UInt | .Long | .ULong => some ("int")
  | .Float | .Double => some ("double")
  | _ => none

/-- `Option`-valued map over a list, entries in order (Rust
`iter().map(..).collect::<Vec<_>>()` where the body can panic). -/
def opt_map_list (f : α → Option β) : List α → Option (List β)
  | [] => some []
  | a :: rest => do
    let b ← f a
    let bs ← opt_map_list f rest
    pure (b :: bs)

/-- `Option`-valued left fold (a Rust `for` loop over mutable state where the
body can panic). -/
def opt_foldl (f : β → α → Option β) (init : β) : List α → Option β
  | [] => some init
  | a :: rest => do
    let b ← f init a
    opt_foldl f b rest

/-- Rust `char::is_whitespace` (the Unicode `White_Space` set). -/
def rust_ws (c : Char) : Bool :=
  c = '\t' || c = '\n' || c = Char.ofNat 0x0B || c = Char.ofNat 0x0C ||
  c = '\r' || c = ' ' || c = Char.ofNat 0x85 || c = Char.ofNat 0xA0 ||
  c = Char.ofNat 0x1680 || (0x2000 ≤ c.toNat && c.toNat ≤ 0x200A) ||
  c = Char.ofNat 0x2028 || c = Char.ofNat 0x2029 || c = Char.ofNat 0x202F ||
  c = Char.ofNat 0x205F || c = Char.ofNat 0x3000

/-- Rust `str::trim`: strip leading and trailing whitespace. -/
def trimL (s : List Char) : List Char :=
  ((s.dropWhile rust_ws).reverse.dropWhile rust_ws).reverse

/-- One step of Rust `str::lines`: split at every `'\n'`. -/
def splitNl : List Char → List (List Char)
  | [] => [[]]
  | c :: rest =>
    if c = '\n' then [] :: splitNl rest
    else
      match splitNl rest with
      | [] => [[c]]
      | l :: ls => (c :: l) :: ls

/-- Strip one trailing `'\r'` (the `\r\n` line terminator case of
Rust `str::lines`). -/
def chopCr (l : List Char) : List Char :=
  if l.getLast? = some '\r' then l.dropLast else l

/-- Rust `str::lines`: split at line endings, the final line ending optional.
Only lines terminated by a line ending have the `'\r'` of a `\r\n` stripped; a
bare trailing `'\r'` on an unterminated final line is kept. -/
def rlinesL (s : List Char) : List (List Char) :=
  let parts := splitNl s
  if parts.getLast? = some [] then parts.dropLast.map chopCr
  else parts.dropLast.map chopCr ++ (parts.getLast?).toList

/-- Rust `Iterator::min` over a list of naturals. -/
def list_min : List Nat → Option Nat
  | [] => none
  | n :: ns =>
    match list_min ns with
    | none => some n
    | some m => some (min n m)

/-- Leading-whitespace width of a line
(`line.chars().take_while(|c| c.is_whitespace()).count()`). -/
def countWs (l : List Char) : Nat :=
  (l.takeWhile rust_ws).length

/-- The comment-wrapper stripping step of `unroll_comment` (coder.rs): remove a
leading `//` or an enclosing block-comment wrapper. -/
def strip_wrapper (src : List Char) : List Char :=
  if ("//".data).isPrefixOf src then src.drop 2
  else if ("/*".data).isPrefixOf src ∧ ("*/".data).isSuffixOf src ∧ 3 < src.length then
    (src.drop 2).take (src.length - 4)
  else src

/-- The `&line[initial_spaces..]` slice of the Rust code: drop a BYTE count
from the front of a line held as characters, `Char.utf8Size` giving each
character's UTF-8 width (Rust `char::len_utf8`).  `none` models the Rust panic
when the byte offset is not a character boundary or exceeds the line's
length. -/
def drop_bytes : Nat → List Char → Option (List Char)
  | 0, l => some l
  | _+1, [] => none
  | n+1, c :: rest =>
    if c.utf8Size ≤ n + 1 then drop_bytes (n + 1 - c.utf8Size) rest
    else none

/-- `unroll_comment` (coder.rs) on character lists: trim, strip the comment
wrapper, trim again; for multi-line text compute the minimum leading-whitespace
width in CHARACTERS over the lines after the first and slice exactly that many
BYTES off every such line (the Rust `&line[initial_spaces..]`), the first line
kept unchanged.  `none` models the panic on a non-boundary or out-of-range
slice. -/
def unroll_commentL (src : List Char) : Option (List Char) :=
  let src := trimL src
  let src := strip_wrapper src
  let src := trimL src
  if src.contains '\n' then
    let initial_spaces := (list_min (((rlinesL src).drop 1).map countWs)).getD 0
    (opt_map_list (fun p => if p.1 > 0 then drop_bytes initial_spaces p.2 else some p.2)
      (rlinesL src).enum).map (List.intercalate ['\n'])
  else some src

/-- `unroll_comment` on `String`. -/
def unroll_comment (s : String) : Option String :=
  (unroll_commentL s.data).map (fun l => String.mk l)

/-- `without_prefix`'s trailing loop: `while src.starts_with('_')` drop one
character. -/
def strip_underscores : List Char → List Char
  | [] => []
  | c :: rest => if c = '_' then strip_underscores rest else c :: rest

/-- `without_prefix` (translator.rs) on character lists: if `pfx` is a prefix of
`src`, drop it and every immediately following underscore; otherwise return
`src` unchanged. -/
def without_pfxL (src pfx : List Char) : List Char :=
  if pfx.isPrefixOf src then strip_underscores (src.drop pfx.length) else src

/-- `without_prefix` on `String`. -/
def without_pfx (src pfx : String) : String :=
  String.mk (without_pfxL src.data pfx.data)

/-- A code chunk (coder.rs `Chunk`): a line, a headed block of chunks, or a
comment. -/
inductive Chunk where
  | line (s : String)
  | block (hdr : String) (units : List Chunk)
  | comment (s : String)

/-- The code emitter (coder.rs `Coder`): an ordered chunk sequence. -/
structure Coder where
  units : List Chunk

/-- `Coder::default()`. -/
def Coder.empty : Coder := ⟨[]⟩

/-- `Coder::line`: append one line. -/
def Coder.line (c : Coder) (s : String) : Coder :=
  ⟨c.units ++ [Chunk.line s]⟩

/-- `Coder::comment`: unroll the comment text and append it; `none` when the
unroll panics on a non-boundary byte slice. -/
def Coder.comment (c : Coder) (s : String) : Option Coder :=
  (unroll_comment s).map (fun u => ⟨c.units ++ [Chunk.comment u]⟩)

/-- `Coder::block`: append a block pairing `hdr` with the chunks of a child
coder (built by the caller; the Rust method passes a fresh `Coder` to a
closure and merges it by value). -/
def Coder.block (c : Coder) (hdr : String) (body : Coder) : Coder :=
  ⟨c.units ++ [Chunk.block hdr body.units]⟩

/-- `l * 4` spaces, the `{:indent$}` padding of `Chunk::format`. -/
def spaces (n : Nat) : String :=
  String.mk (List.replicate n (' '))

/-- Rust `str::lines` on `String`. -/
def rlinesS (s : String) : List String :=
  (rlinesL s.data).map (fun l => String.mk l)

/-- The `Comment` arm of `Chunk::format`: `/*` followed by the first line, each
later line indented by one extra space, and an aligned closing ` */`. -/
def render_comment (ind : String) (src : String) : String :=
  ind ++ "/*" ++
  (match rlinesS src with
   | [] => ""
   | l :: ls => l ++ "\n" ++ String.join (ls.map (fun l2 => ind ++ " " ++ l2 ++ "\n"))) ++
  ind ++ " */\n"

/-- `Chunk::format` at nesting level `l`: 4-space-per-level indentation, empty
blocks render as an inline `\x7b\x7d` marker, non-empty blocks indent their
children one level deeper.  The fuel argument makes the recursion structural;
it is consumed once per nesting level. -/
def render_chunk : Nat → Nat → Chunk → String
  | 0, _, _ => ""
  | fuel+1, l, ch =>
    match ch with
    | Chunk.line s => spaces (l*4) ++ s ++ "\n"
    | Chunk.block hdr units =>
      if units.isEmpty then spaces (l*4) ++ hdr ++ " \x7b\x7d\n"
      else
        spaces (l*4) ++ hdr ++ " \x7b\n" ++
        String.join (units.map (render_chunk fuel (l+1))) ++
        spaces (l*4) ++ "\x7d\n"
    | Chunk.comment s => render_comment (spaces (l*4)) s

/-- `Coder`'s `Display` instance: format every chunk at level 0. -/
def render_coder (fuel : Nat) (c : Coder) : String :=
  String.join (c.units.map (render_chunk fuel 0))

/-- A function or callback descriptor (translator.rs `FuncDef`). -/
structure FuncDef where
  name : Option String
  cmt : Option String
  cffi : String
  dart : String

/-- `translate_types` (translator.rs), parametrized by the type translation
function: translate every type and join with `", "`. -/
def translate_types_f (tt : CType → Bool → Option String) (ts : List CType) (ffi : Bool) :
    Option String := do
  let parts ← opt_map_list (fun t => tt t ffi) ts
  pure (String.intercalate (", ") parts)

/-- `FuncDef::from_type`'s body (translator.rs), parametrized by the type
translation function and taking the prototype's result and argument types:
build the native and logical `Function` type expressions. -/
def func_def_core (tt : CType → Bool → Option String) (res : Option CType)
    (args : Option (List CType)) : Option FuncDef := do
  let cffi_res ← match res with
    | some t => tt t true
    | none => pure ("Void")
  let dart_res ← match res with
    | some t => tt t false
    | none => pure ("void")
  let cffi_args ← match args with
    | some ts => translate_types_f tt ts true
    | none => pure ("")
  let dart_args ← match args with
    | some ts => translate_types_f tt ts false
    | none => pure ("")
  pure { name := none, cmt := none,
         cffi := cffi_res ++ (" Function(") ++ cffi_args ++ (")"),
         dart := dart_res ++ (" Function(") ++ dart_args ++ (")") }

/-- `translate_type` (translator.rs): map a C type to a Dart type expression,
native (`ffi = true`) or logical (`ffi = false`).  Scalar kinds go through the
fixed tables; pointers wrap the pointee translated natively; records are looked
up in `typenames`; function prototypes render as a `NativeFunction` expression
built from native representations; any other kind yields a tagged placeholder.
Fuel is consumed at each recursive call. -/
def translate_type : Nat → List (String × String) → CType → Bool → Option String
  | 0, _, _, _ => none
  | fuel+1, tn, t, ffi =>
    let ct := canonicalType t
    let kind := ct.kind
    match (if ffi then cffi_type kind else dart_type kind) with
    | some s => some s
    | none =>
      match kind with
      | TypeKind.Pointer => do
          let pt ← t.pointee <|> ct.pointee
          let s ← translate_type fuel tn pt true
          pure ("Pointer<" ++ s ++ ">")
      | TypeKind.Record => do
          let d ← t.decl
          let nm ← d.name
          pure ((List.lookup nm tn).getD nm)
      | TypeKind.FunctionPrototype =>
          (func_def_core (translate_type fuel tn) ct.result ct.argTypes).map
            (fun cb => "NativeFunction<" ++ cb.cffi ++ ">")
      | TypeKind.FunctionNoPrototype =>
          (func_def_core (translate_type fuel tn) ct.result ct.argTypes).map
            (fun cb => "NativeFunction<" ++ cb.cffi ++ ">")
      | k => some ("<unsupported_type_kind:" ++ k.debugName ++ ">")

/-- `FuncDef::from_type` (translator.rs): descriptor of a bare function
prototype type, no name and no comment. -/
def FuncDef.from_type (fuel : Nat) (tn : List (String × String)) (t : CType) : Option FuncDef :=
  func_def_core (translate_type fuel tn) t.result t.argTypes

/-- `translate_args` (translator.rs): translate each argument entity's type and
append the argument name when present. -/
def translate_args (fuel : Nat) (tn : List (String × String)) (args : List CEntity)
    (ffi : Bool) : Option String := do
  let parts ← opt_map_list (fun arg => do
      let ty ← arg.typeOf
      let ts ← translate_type fuel tn ty ffi
      match arg.name with
      | some n => pure (ts ++ " " ++ n)
      | none => pure ts) args
  pure (String.intercalate (", ") parts)

/-- `FuncDef::from_entity` (translator.rs): descriptor of a function
declaration entity, keeping its name and comment. -/
def FuncDef.from_entity (fuel : Nat) (tn : List (String × String)) (e : CEntity) :
    Option FuncDef := do
  let res := e.resultType
  let args := e.arguments
  let cffi_res ← match res with
    | some t => translate_type fuel tn t true
    | none => pure ("Void")
  let dart_res ← match res with
    | some t => translate_type fuel tn t false
    | none => pure ("void")
  let cffi_args ← match args with
    | some l => translate_args fuel tn l true
    | none => pure ("")
  let dart_args ← match args with
    | some l => translate_args fuel tn l false
    | none => pure ("")
  pure { name := e.name, cmt := e.comment,
         cffi := cffi_res ++ (" Function(") ++ cffi_args ++ (")"),
         dart := dart_res ++ (" Function(") ++ dart_args ++ (")") }

/-- `type_annotation` (translator.rs): the `@CffiType()` field annotation, or
the empty string when the canonical kind has no native table entry. -/
def type_annot (t : CType) : String :=
  match cffi_type (canonicalType t).kind with
  | some s => "@" ++ s ++ "()"
  | none => ""

/-- `native_type` (translator.rs): the logical table entry for the canonical
kind, or the empty string. -/
def native_type (t : CType) : String :=
  match dart_type (canonicalType t).kind with
  | some s => s
  | none => ""

/-- The translator configuration (options.rs `Options`).  The regex engine is
an external collaborator: `names_match` models `Regex::is_match` and
`names_replace` models `Regex::replace` with the configured template, both pure
functions of the name. -/
structure Options where
  class_name : String
  names_match : String → Bool
  names_replace : String → String

/-- The translator state (translator.rs `Translator`). -/
structure Translator where
  options : Options
  exported : List String
  typenames : List (String × String)
  calls : List (String × FuncDef)
  callbacks : List (String × FuncDef)
  coder : Coder

/-- `Translator::new`. -/
def Translator.new (opts : Options) : Translator :=
  { options := opts, exported := [], typenames := [], calls := [], callbacks := [],
    coder := Coder.empty }

/-- `Translator::match_name`. -/
def match_name (st : Translator) (name : String) : Bool :=
  st.options.names_match name

/-- `Translator::make_name`. -/
def make_name (st : Translator) (name : String) : String :=
  st.options.names_replace name

/-- `Translator::export_once` (translator.rs): true and register the name on
first sight, false afterwards. -/
def export_once (st : Translator) (name : String) : Bool × Translator :=
  if st.exported.contains name then (false, st)
  else (true, { st with exported := name :: st.exported })

/-- `if let Some(cmt) = entity.get_comment() { coder.comment(cmt) }`; a panic
inside `comment` aborts. -/
def add_comment_opt (coder : Coder) (cmt : Option String) : Option Coder :=
  match cmt with
  | some c => coder.comment c
  | none => some coder

/-- The loop body of `Translator::translate_enum`: for an enum-constant child,
strip the enum's name prefix from the constant's name and emit one constant
assignment. -/
def enum_const_line (name : String) (coder : Coder) (e : CEntity) : Option Coder :=
  if e.kind = EntityKind.EnumConstantDecl then do
    let cname ← e.name
    let cname := without_pfx cname name
    let v ← e.enumVal
    pure (coder.line ("static const " ++ cname ++ " = " ++ toString v ++ ";"))
  else pure coder

/-- `Translator::translate_enum` (translator.rs): optional comment, then a
`class` block with one constant line per enum-constant child. -/
def translate_enum (st : Translator) (name xname : String) (e : CEntity) :
    Option Translator := do
  let coder ← add_comment_opt st.coder e.comment
  let body ← opt_foldl (enum_const_line name) Coder.empty e.children
  pure { st with coder := coder.block ("class " ++ xname) body }

/-- `Translator::translate_field` (translator.rs): for a field declaration,
emit its optional comment and one line with the native annotation, the logical
type and the field name. -/
def translate_field (coder : Coder) (e : CEntity) : Option Coder :=
  if e.kind = EntityKind.FieldDecl then do
    let name ← e.name
    let ty ← e.typeOf
    let ffi_ty := type_annot ty
    let nat_ty := native_type ty
    let coder ← add_comment_opt coder e.comment
    pure (coder.line (ffi_ty ++ " " ++ nat_ty ++ " " ++ name ++ ";"))
  else pure coder

/-- `Translator::translate_struct` (translator.rs): optional comment, then a
`class … extends Struct` block with one line per field child. -/
def translate_struct (st : Translator) (name xname : String) (e : CEntity) :
    Option Translator := do
  let coder ← add_comment_opt st.coder e.comment
  let body ← opt_foldl translate_field Coder.empty e.children
  pure { st with coder := coder.block ("class " ++ xname ++ " extends Struct") body }

/-- `Translator::translate_typedef` (translator.rs): when the canonical
underlying type is a record, emit it as a struct class and return true;
otherwise return false and leave the state unchanged. -/
def translate_typedef (st : Translator) (name xname : String) (e : CEntity) :
    Option (Bool × Translator) := do
  let ty ← e.underlying
  let ty := canonicalType ty
  match ty.kind with
  | TypeKind.Record => do
      let coder ← add_comment_opt st.coder e.comment
      let fs ← ty.fields
      let body ← opt_foldl translate_field Coder.empty fs
      pure (true, { st with coder := coder.block ("class " ++ xname ++ " extends Struct") body })
  | _ => pure (false, st)

/-- The registry update at the end of `Translator::parse_type`'s export branch:
`self.exported.insert(name); self.typenames.insert(name, xname)`. -/
def register (st : Translator) (name xname : String) : Translator :=
  { st with exported := name :: st.exported, typenames := (name, xname) :: st.typenames }

/-- `Translator::parse_type` (translator.rs): chase pointers, then translate
the type's declaration (enum, struct, or typedef-to-record) unless its name was
already exported; on success record the name in both registries.  Unparsed
typedefs and unknown declaration kinds return without registering.  Fuel is
consumed at the pointer recursion. -/
def parse_type : Nat → Translator → CType → Option Translator
  | 0, _, _ => none
  | fuel+1, st, t =>
    match t.kind with
    | TypeKind.Pointer => do
        let pt ← t.pointee
        parse_type fuel st pt
    | _ =>
      match t.decl with
      | some entity =>
        match entity.name with
        | some name =>
          let xname := make_name st name
          if st.exported.contains name then some st
          else
            match entity.kind with
            | EntityKind.EnumDecl => do
                let st2 ← translate_enum st name xname entity
                some (register st2 name xname)
            | EntityKind.StructDecl => do
                let st2 ← translate_struct st name xname entity
                some (register st2 name xname)
            | EntityKind.TypedefDecl => do
                let r ← translate_typedef st name xname entity
                if r.1 then some (register r.2 name xname) else some r.2
            | _ => some st
        | none => some st
      | none => some st

/-- Is this argument entity a pointer to a function prototype (the callback
test of `Translator::parse_function`, on the canonical type)? -/
def fnptr_arg (arg : CEntity) : Bool :=
  match arg.typeOf with
  | some ty =>
    let ct := canonicalType ty
    match ct.kind with
    | TypeKind.Pointer =>
      match ct.pointee with
      | some pt =>
        match pt.kind with
        | TypeKind.FunctionPrototype => true
        | TypeKind.FunctionNoPrototype => true
        | _ => false
      | none => false
    | _ => false
  | none => false

/-- The loop body of `Translator::parse_function` over one argument, carrying
the state and the unnamed-callback counter: a pointer-to-function-prototype
argument becomes a callback descriptor keyed `{fn_name}_{arg_name}` (unnamed
arguments drawing `cb<num>` names); any other argument goes through
`parse_type`. -/
def parse_function_arg (fuel : Nat) (xname : String) (acc : Translator × Nat)
    (arg : CEntity) : Option (Translator × Nat) := do
  let st := acc.1
  let num := acc.2
  let ty ← arg.typeOf
  let ct := canonicalType ty
  match ct.kind with
  | TypeKind.Pointer => do
    let pt ← ct.pointee
    match pt.kind with
    | TypeKind.FunctionPrototype => do
        let p := match arg.name with
          | some n => (n, num)
          | none => ("cb" ++ toString num, num + 1)
        let key := xname ++ "_" ++ p.1
        let fd ← FuncDef.from_type fuel st.typenames pt
        pure ({ st with callbacks := st.callbacks ++ [(key, fd)] }, p.2)
    | TypeKind.FunctionNoPrototype => do
        let p := match arg.name with
          | some n => (n, num)
          | none => ("cb" ++ toString num, num + 1)
        let key := xname ++ "_" ++ p.1
        let fd ← FuncDef.from_type fuel st.typenames pt
        pure ({ st with callbacks := st.callbacks ++ [(key, fd)] }, p.2)
    | _ => do
        let st2 ← parse_type fuel st ty
        pure (st2, num)
  | _ => do
      let st2 ← parse_type fuel st ty
      pure (st2, num)

/-- `Translator::parse_function` (translator.rs): parse the result type, walk
the arguments (callback extraction or `parse_type`), then record the function
descriptor under its rewritten name. -/
def parse_function (fuel : Nat) (st : Translator) (name : String) (entity : CEntity) :
    Option Translator := do
  let res ← entity.resultType
  let args ← entity.arguments
  let xname := make_name st name
  let st2 ← parse_type fuel st res
  let acc ← opt_foldl (parse_function_arg fuel xname) (st2, 0) args
  let fd ← FuncDef.from_entity fuel acc.1.typenames entity
  pure { acc.1 with calls := acc.1.calls ++ [(xname, fd)] }

/-- A single-quote character, used by the generated Dart import and symbol
lookup strings. -/
def sq : String := String.singleton (Char.ofNat 39)

/-- The library-wrapper class body built by the closure in
`Translator::translate`: callback fields, function fields, the constructor
with one parameter per callback, and the initializer list binding each
function by dynamic-library symbol lookup. -/
def class_body (cls : String) (calls callbacks : List (String × FuncDef)) :
    Option Coder := do
  let coder ← Coder.empty.comment ("Callbacks")
  let coder ← opt_foldl (fun coder (p : String × FuncDef) => do
    let coder ← add_comment_opt coder p.2.cmt
    pure (coder.line ("final Pointer<NativeFunction<" ++ p.2.cffi ++ ">> _" ++ p.1 ++ ";")))
    coder callbacks
  let coder ← coder.comment ("Functions")
  let coder ← opt_foldl (fun coder (p : String × FuncDef) => do
    let coder ← add_comment_opt coder p.2.cmt
    pure (coder.line ("final " ++ p.2.dart ++ " _" ++ p.1 ++ ";"))) coder calls
  let coder ← coder.comment ("Constructor")
  let coder := coder.line (cls ++ "(")
  let coder := coder.line ("    DynamicLibrary dylib")
  let coder := callbacks.foldl (fun coder p => coder.line ("  , this._" ++ p.1)) coder
  let coder := coder.line (")")
  let coder ← coder.comment ("Init functions")
  let acc ← opt_foldl (fun (acc : Coder × Bool) p => do
      let ffi_name ← p.2.name
      let sep := if acc.2 then (":") else (",")
      pure ((acc.1.line (sep ++ " _" ++ p.1 ++ " = dylib.lookup<NativeFunction<" ++
              p.2.cffi ++ ">>(" ++ sq ++ ffi_name ++ sq ++ ").asFunction()"), false)))
    (coder, true) calls
  pure (acc.1.line ("\x7b\x7d"))

/-- The body of the first traversal pass of `Translator::translate`: a
scope-matched function declaration goes through `parse_function`; every other
child is skipped. -/
def pass1_step (fuel : Nat) (st : Translator) (ch : CEntity) : Option Translator :=
  match ch.name with
  | some name =>
    if match_name st name then
      match ch.kind with
      | EntityKind.FunctionDecl => parse_function fuel st name ch
      | _ => some st
    else some st
  | none => some st

/-- The body of the second traversal pass of `Translator::translate`: a
scope-matched child not yet exported is marked exported; only an enum
declaration is then translated. -/
def pass2_step (st : Translator) (ch : CEntity) : Option Translator :=
  match ch.name with
  | some name =>
    if match_name st name then
      let xname := make_name st name
      let r := export_once st name
      if r.1 then
        match ch.kind with
        | EntityKind.EnumDecl => translate_enum r.2 name xname ch
        | _ => some r.2
      else some r.2
    else some st
  | none => some st

/-- `Translator::translate` (translator.rs): emit the import header, run the
two passes over the root's children, then emit the library-wrapper class. -/
def translate (fuel : Nat) (st : Translator) (entity : CEntity) : Option Translator := do
  let st := { st with
    coder := (st.coder.line ("import " ++ sq ++ "dart:ffi" ++ sq ++ ";")).line ("") }
  let st ← opt_foldl (pass1_step fuel) st entity.children
  let st ← opt_foldl pass2_step st entity.children
  let coder2 ← st.coder.comment ("Library class")
  let st := { st with coder := coder2 }
  let body ← class_body st.options.class_name st.calls st.callbacks
  pure { st with coder := st.coder.block ("class " ++ st.options.class_name) body }

/-! Spec-side and proof-side definitions. -/

/-- Registry invariant: every key of `typenames` is a member of `exported`. -/
def reg_inv (st : Translator) : Prop :=
  ∀ p ∈ st.typenames, st.exported.contains p.1 = true

/-- Extensional equivalence of translator states: identical options, calls,
callbacks and coder, and registries with the same membership and lookup
behaviour (two hash-set or hash-map representations with the same contents). -/
def StEquiv (s1 s2 : Translator) : Prop :=
  s1.options = s2.options ∧
  (∀ n, s1.exported.contains n = s2.exported.contains n) ∧
  (∀ n, List.lookup n s1.typenames = List.lookup n s2.typenames) ∧
  s1.calls = s2.calls ∧ s1.callbacks = s2.callbacks ∧ s1.coder = s2.coder

/-- Lift a relation to `Option`: both absent, or both present and related. -/
def OptRel (R : β → γ → Prop) : Option β → Option γ → Prop
  | none, none => True
  | some a, some b => R a b
  | _, _ => False

/-- The callback keys `parse_function` is specified to produce, written from
the claim: one key per pointer-to-function-prototype argument, named arguments
keeping their name and unnamed ones drawing `cb0`, `cb1`, … in order, the
counter advancing only on unnamed occurrences. -/
def spec_callback_keys (xname : String) : List CEntity → Nat → List String
  | [], _ => []
  | arg :: rest, num =>
    if fnptr_arg arg then
      match arg.name with
      | some n => (xname ++ "_" ++ n) :: spec_callback_keys xname rest num
      | none => (xname ++ "_cb" ++ toString num) :: spec_callback_keys xname rest (num + 1)
    else spec_callback_keys xname rest num

/-! Concrete fixtures used by witnesses and counterexamples. -/

/-- Fixture options: accept every name, rewrite names to themselves. -/
def exOpts : Options :=
  { class_name := "Lib", names_match := fun _ => true, names_replace := fun n => n }

def exIntTy : CType := .mk .Int none none none none none none

def exVoidTy : CType := .mk .Void none none none none none none

/-- Fixture enum constant. -/
def exConst (n : String) (v : Int) : CEntity :=
  .mk .EnumConstantDecl (some n) none [] none none none (some v) none

/-- Fixture `enum Color \x7b COLOR_RED = 0, COLOR_GREEN = 1 \x7d`. -/
def exColorEnum : CEntity :=
  .mk .EnumDecl (some ("Color")) none [exConst ("COLOR_RED") 0, exConst ("COLOR_GREEN") 1]
    none none none none none

def exFieldX : CEntity := .mk .FieldDecl (some ("x")) none [] none none (some exIntTy) none none

/-- Fixture `struct S \x7b int x; \x7d`. -/
def exStructS : CEntity := .mk .StructDecl (some ("S")) none [exFieldX] none none none none none

/-- Fixture record type referencing `struct S`. -/
def exRecTyS : CType := .mk .Record none none (some exStructS) none none none

/-- The state after translating `exRecTyS` once from a fresh translator. -/
def exStS : Translator :=
  (parse_type 10 (Translator.new exOpts) exRecTyS).getD (Translator.new exOpts)

/-- Fixture prototype `void (int)`. -/
def exProtoTy : CType := .mk .FunctionPrototype none none none (some exVoidTy) (some [exIntTy]) none

/-- Fixture pointer-to-function-prototype type. -/
def exPtrProto : CType := .mk .Pointer none (some exProtoTy) none none none none

def exArgA : CEntity := .mk (.Other ("ParmDecl")) (some ("a")) none [] none none (some exIntTy) none none

def exArgCbNamed : CEntity :=
  .mk (.Other ("ParmDecl")) (some ("mycb")) none [] none none (some exPtrProto) none none

def exArgCbAnon : CEntity :=
  .mk (.Other ("ParmDecl")) none none [] none none (some exPtrProto) none none

/-- Fixture function `f` with arguments `(int a, anon fnptr, named fnptr, anon fnptr)`. -/
def exFunF : CEntity :=
  .mk .FunctionDecl (some ("f")) none [] (some exIntTy)
    (some [exArgA, exArgCbAnon, exArgCbNamed, exArgCbAnon]) none none none

/-- Fixture function `g` with one unnamed function-pointer argument. -/
def exFunG : CEntity :=
  .mk .FunctionDecl (some ("g")) none [] (some exIntTy) (some [exArgCbAnon]) none none none

/-- Fixture root entity with a single top-level struct declaration. -/
def exRootStruct : CEntity :=
  .mk (.Other ("TranslationUnit")) none none [exStructS] none none none none none

/-- Fixture root entity with no children. -/
def exRootEmpty : CEntity :=
  .mk (.Other ("TranslationUnit")) none none [] none none none none none

/-- Fixture type of an unrecognized kind. -/
def exOtherTy : CType := .mk (.Other ("ConstantArray")) none none none none none none

/-- No-break space U+00A0: a whitespace character whose UTF-8 encoding is two
bytes wide. -/
def exNbsp : Char := Char.ofNat 0xA0

/-- Fixture comment text whose continuation lines have minimal leading
whitespace of two characters, the first of them two no-break spaces (four
bytes). -/
def exC6Input : List Char :=
  ['a', '\n', exNbsp, exNbsp, 'x', '\n', ' ', ' ', 'y']

/-- Fixture comment text whose byte slice falls inside a no-break space. -/
def exC6Panic : List Char :=
  ['a', '\n', exNbsp, 'x', '\n', ' ', 'y']

/-- Fixture state for C8 with registries in one representation order. -/
def exS1 : Translator :=
  { Translator.new exOpts with exported := ["A", "B"], typenames := [("x", "X")] }

/-- Fixture state for C8 with the exported set in the other order. -/
def exS2 : Translator :=
  { Translator.new exOpts with exported := ["B", "A"], typenames := [("x", "X")] }

theorem strip_underscores_eq_dropWhile (l : List Char) :
    strip_underscores l = l.dropWhile (fun c => c == '_') := by
  induction l with
  | nil => rfl
  | cons c rest ih =>
    simp only [strip_underscores, List.dropWhile]
    by_cases h : c = '_'
    · subst h; simp [ih]
    · have hb : (c == '_') = false := by simp [h]
      simp [h, hb]

/-- C2 counterexample: the logical (dart) table maps the 32-bit float and the
64-bit double to the same host type `double`, refuting "two distinct logical
host types". -/
theorem c2_counterexample :
    dart_type TypeKind.Float = dart_type TypeKind.Double ∧
    dart_type TypeKind.Float = some ("double") ∧
    dart_type TypeKind.Double = some ("double") :=
  ⟨rfl, rfl, rfl⟩

/-- C2 (amended): the logical mapping collapses every integer kind to `int`
and both floating kinds to the single logical type `double`; only the native
layer keeps Float and Double distinct. -/
theorem c2_logical_collapse :
    (∀ k, k ∈ [TypeKind.Bool, TypeKind.SChar, TypeKind.CharS, TypeKind.UChar,
               TypeKind.Short, TypeKind.UShort, TypeKind.Int, TypeKind.UInt,
               TypeKind.Long, TypeKind.ULong] → dart_type k = some ("int")) ∧
    dart_type TypeKind.Float = some ("double") ∧
    dart_type TypeKind.Double = some ("double") ∧
    cffi_type TypeKind.Float = some ("Float") ∧
    cffi_type TypeKind.Double = some ("Double") := by
  refine ⟨?_, rfl, rfl, rfl, rfl⟩
  decide

theorem c2_witness : dart_type TypeKind.UShort = some ("int") :=
  c2_logical_collapse.1 TypeKind.UShort (by decide)

/-- C4 counterexample: prefix stripping is case sensitive, so `COLOR_RED`
inside an enum named `Color` is emitted unchanged, not as `RED`. -/
theorem c4_counterexample :
    without_pfx ("COLOR_RED") ("Color") = "COLOR_RED" ∧
    without_pfx ("COLOR_RED") ("Color") ≠ "RED" ∧
    (translate_enum (Translator.new exOpts) ("Color") ("Color") exColorEnum).map
        (fun s => s.coder.units) =
      some [Chunk.block ("class Color")
        [Chunk.line ("static const COLOR_RED = 0;"),
         Chunk.line ("static const COLOR_GREEN = 1;")]] :=
  ⟨by decide, by decide, rfl⟩

/-- C4 (amended): when the enum's name is an exact (case-sensitive) prefix of
the constant's name, the member name is the constant's name with the prefix
and all immediately following underscores removed; otherwise the name is kept
unchanged — `COLOR_RED` in enum `COLOR` gives `RED`, `COLOR__RED` gives `RED`,
but `COLOR_RED` in enum `Color` stays `COLOR_RED`. -/
theorem c4_prefix_strip_case_sensitive :
    (∀ src pfx : List Char, pfx.isPrefixOf src = true →
       without_pfxL src pfx = (src.drop pfx.length).dropWhile (fun c => c == '_')) ∧
    (∀ src pfx : List Char, pfx.isPrefixOf src = false → without_pfxL src pfx = src) ∧
    without_pfx ("COLOR_RED") ("COLOR") = "RED" ∧
    without_pfx ("COLOR__RED") ("COLOR") = "RED" ∧
    without_pfx ("COLOR_RED") ("Color") = "COLOR_RED" := by
  refine ⟨?_, ?_, by decide, by decide, by decide⟩
  · intro src pfx h
    simp [without_pfxL, h, strip_underscores_eq_dropWhile]
  · intro src pfx h
    simp [without_pfxL, h]

theorem c4_witness :
    without_pfxL (("AB__x").data) (("AB").data) =
      ((("AB__x").data).drop ((("AB").data).length)).dropWhile (fun c => c == '_') :=
  c4_prefix_strip_case_sensitive.1 (("AB__x").data) (("AB").data) (by decide)

/-- C7: a type whose canonical kind is outside the recognized set translates
to a tagged placeholder embedding the kind's name, instead of aborting. -/
theorem c7_unsupported_placeholder (fuel : Nat) (tn : List (String × String)) (t : CType)
    (ffi : Bool) (s : String) (h : (canonicalType t).kind = TypeKind.Other s) :
    translate_type (fuel + 1) tn t ffi = some ("<unsupported_type_kind:" ++ s ++ ">") := by
  cases ffi <;> simp [translate_type, h, cffi_type, dart_type, TypeKind.debugName]

theorem c7_witness :
    (canonicalType exOtherTy).kind = TypeKind.Other ("ConstantArray") ∧
    translate_type 1 [] exOtherTy true = some ("<unsupported_type_kind:ConstantArray>") :=
  ⟨by decide, c7_unsupported_placeholder 0 [] exOtherTy true ("ConstantArray") (by decide)⟩

theorem opt_enumFrom_map_pos (f : List Char → Option (List Char)) (l : List (List Char)) :
    ∀ n, 0 < n →
      opt_map_list (fun p => if p.1 > 0 then f p.2 else some p.2) (l.enumFrom n) =
        opt_map_list f l := by
  induction l with
  | nil => intro n _; rfl
  | cons a r ih =>
    intro n hn
    simp only [List.enumFrom_cons, opt_map_list]
    rw [if_pos hn, ih (n + 1) (by omega)]

theorem opt_enum_map_head_tail (f : List Char → Option (List Char)) (l : List (List Char)) :
    opt_map_list (fun p => if p.1 > 0 then f p.2 else some p.2) l.enum =
      (match l with
       | [] => some []
       | a :: r => (opt_map_list f r).map (fun r2 => a :: r2)) := by
  cases l with
  | nil => rfl
  | cons a r =>
    show opt_map_list _ ((a :: r).enumFrom 0) = _
    simp only [List.enumFrom_cons, opt_map_list]
    rw [if_neg (by omega), opt_enumFrom_map_pos f r 1 (by omega)]
    cases hr : opt_map_list f r <;> simp [hr]

/-- C6 counterexample: the minimum leading-whitespace width is counted in
characters but applied as a BYTE offset.  With two no-break spaces (two bytes
each) leading the second line, the computed minimum is 2, yet the emitted
second line still starts with a whitespace character — only one character (two
bytes) was removed, not two characters; and when the byte offset falls inside
a multi-byte whitespace character the run aborts instead of producing
output. -/
theorem c6_counterexample :
    list_min (((rlinesL exC6Input).drop 1).map countWs) = some 2 ∧
    unroll_commentL exC6Input =
      some (['a', '\n', exNbsp, 'x', '\n', 'y']) ∧
    ¬ unroll_commentL exC6Input =
        some (List.intercalate ['\n']
          (match rlinesL exC6Input with
           | [] => []
           | first :: rest => first :: rest.map (fun line => line.drop 2))) ∧
    unroll_commentL exC6Panic = none := by
  refine ⟨by decide, by decide, by decide, by decide⟩

/-- C6 (amended): for multi-line comment text (after wrapper stripping and
trimming), `unroll_comment` computes the minimum leading-whitespace width in
characters over all lines after the first and removes exactly that many BYTES
from the start of each such line, keeping the first line unchanged; when that
byte offset is not a character boundary of some line (or exceeds its length)
the run aborts.  On ASCII leading whitespace bytes and characters coincide. -/
theorem c6_comment_reflow (src : List Char)
    (h : (trimL (strip_wrapper (trimL src))).contains '\n' = true) :
    unroll_commentL src =
      (match rlinesL (trimL (strip_wrapper (trimL src))) with
       | [] => some []
       | first :: rest =>
         (opt_map_list (fun line =>
            drop_bytes ((list_min (rest.map countWs)).getD 0) line) rest).map
           (fun rest2 => List.intercalate ['\n'] (first :: rest2))) := by
  simp only [unroll_commentL, h, if_true]
  rw [opt_enum_map_head_tail]
  cases hc : rlinesL (trimL (strip_wrapper (trimL src))) with
  | nil => rfl
  | cons first rest =>
    simp only [Option.map_map]
    rfl

theorem c6_witness :
    unroll_commentL (("/* Hello\n      world\n    end */").data) =
      (match rlinesL (trimL (strip_wrapper (trimL (("/* Hello\n      world\n    end */").data)))) with
       | [] => some []
       | first :: rest =>
         (opt_map_list (fun line =>
            drop_bytes ((list_min (rest.map countWs)).getD 0) line) rest).map
           (fun rest2 => List.intercalate ['\n'] (first :: rest2))) :=
  c6_comment_reflow (("/* Hello\n      world\n    end */").data) (by decide)

theorem translate_enum_some (st : Translator) (n x : String) (e : CEntity) (st2 : Translator)
    (h : translate_enum st n x e = some st2) :
    ∃ coder2 body, add_comment_opt st.coder e.comment = some coder2 ∧
      opt_foldl (enum_const_line n) Coder.empty e.children = some body ∧
      st2 = { st with coder := coder2.block ("class " ++ x) body } := by
  unfold translate_enum at h
  cases hcm : add_comment_opt st.coder e.comment with
  | none => rw [hcm] at h; simp at h
  | some coder2 =>
    rw [hcm] at h
    simp only [Option.bind_eq_bind, Option.some_bind] at h
    cases hb : opt_foldl (enum_const_line n) Coder.empty e.children with
    | none => rw [hb] at h; simp at h
    | some b =>
      rw [hb] at h
      simp at h
      exact ⟨coder2, b, rfl, rfl, h.symm⟩

theorem translate_enum_fields (st : Translator) (n x : String) (e : CEntity) (st2 : Translator)
    (h : translate_enum st n x e = some st2) :
    st2.options = st.options ∧ st2.exported = st.exported ∧ st2.typenames = st.typenames ∧
    st2.calls = st.calls ∧ st2.callbacks = st.callbacks := by
  obtain ⟨c2, b, _, _, rfl⟩ := translate_enum_some st n x e st2 h
  exact ⟨rfl, rfl, rfl, rfl, rfl⟩

theorem translate_struct_some (st : Translator) (n x : String) (e : CEntity) (st2 : Translator)
    (h : translate_struct st n x e = some st2) :
    ∃ coder2 body, add_comment_opt st.coder e.comment = some coder2 ∧
      opt_foldl translate_field Coder.empty e.children = some body ∧
      st2 = { st with coder := coder2.block ("class " ++ x ++ " extends Struct") body } := by
  unfold translate_struct at h
  cases hcm : add_comment_opt st.coder e.comment with
  | none => rw [hcm] at h; simp at h
  | some coder2 =>
    rw [hcm] at h
    simp only [Option.bind_eq_bind, Option.some_bind] at h
    cases hb : opt_foldl translate_field Coder.empty e.children with
    | none => rw [hb] at h; simp at h
    | some b =>
      rw [hb] at h
      simp at h
      exact ⟨coder2, b, rfl, rfl, h.symm⟩

theorem translate_struct_fields (st : Translator) (n x : String) (e : CEntity) (st2 : Translator)
    (h : translate_struct st n x e = some st2) :
    st2.options = st.options ∧ st2.exported = st.exported ∧ st2.typenames = st.typenames ∧
    st2.calls = st.calls ∧ st2.callbacks = st.callbacks := by
  obtain ⟨c2, b, _, _, rfl⟩ := translate_struct_some st n x e st2 h
  exact ⟨rfl, rfl, rfl, rfl, rfl⟩

theorem translate_typedef_fields (st : Translator) (n x : String) (e : CEntity)
    (r : Bool × Translator) (h : translate_typedef st n x e = some r) :
    r.2.options = st.options ∧ r.2.exported = st.exported ∧ r.2.typenames = st.typenames ∧
    r.2.calls = st.calls ∧ r.2.callbacks = st.callbacks ∧
    (r.1 = false → r.2 = st) := by
  unfold translate_typedef at h
  cases hu : e.underlying with
  | none => rw [hu] at h; simp at h
  | some u =>
    rw [hu] at h
    simp at h
    cases hk : (canonicalType u).kind <;> rw [hk] at h <;> simp at h
    case Record =>
      cases hcm : add_comment_opt st.coder e.comment with
      | none => rw [hcm] at h; simp at h
      | some coder2 =>
        rw [hcm] at h
        simp only [Option.bind_eq_bind, Option.some_bind] at h
        cases hf : (canonicalType u).fields with
        | none => rw [hf] at h; simp at h
        | some fs =>
          rw [hf] at h
          simp at h
          cases hb : opt_foldl translate_field Coder.empty fs with
          | none => rw [hb] at h; simp at h
          | some b =>
            rw [hb] at h
            simp at h
            subst h
            exact ⟨rfl, rfl, rfl, rfl, rfl, by simp⟩
    all_goals {
      subst h
      exact ⟨rfl, rfl, rfl, rfl, rfl, fun _ => rfl⟩
    }

/-- C1: `export_once` returns true and registers a name on first sight and
false (leaving the state unchanged) on every later call; and `parse_type` is
idempotent — re-referencing a type just translated adds nothing, so a
declaration reachable through several type references has its defining block
appended exactly once, at its first reference. -/
theorem c1_export_once_dedup :
    (∀ st name, st.exported.contains name = false →
       (export_once st name).1 = true ∧ (export_once st name).2.exported.contains name = true) ∧
    (∀ st name, st.exported.contains name = true →
       (export_once st name).1 = false ∧ (export_once st name).2 = st) ∧
    (∀ st name, (export_once (export_once st name).2 name).1 = false) ∧
    (∀ fuel st t st', parse_type fuel st t = some st' → parse_type fuel st' t = some st') := by
  refine ⟨?_, ?_, ?_, ?_⟩
  · intro st name h
    have h' : ¬ name ∈ st.exported := by simpa using h
    simp [export_once, h']
  · intro st name h
    have h' : name ∈ st.exported := by simpa using h
    simp [export_once, h']
  · intro st name
    by_cases h : name ∈ st.exported
    · simp [export_once, h]
    · simp [export_once, h]
  · intro fuel
    induction fuel with
    | zero => intro st t st' h; simp [parse_type] at h
    | succ f ih =>
      intro st t st' h
      obtain ⟨k, cn, pe, dc, rs, ag, fl⟩ := t
      rw [parse_type] at h ⊢
      simp only [CType.kind, CType.pointee, CType.decl] at h ⊢
      cases k
      case Pointer =>
        cases pe with
        | none => simp at h
        | some pt =>
          simp at h ⊢
          exact ih st pt st' h
      all_goals
        cases dc with
        | none =>
          simp at h
          subst h
          simp
        | some entity =>
          obtain ⟨ek, en, ecmt, ech, ers, eargs, ety, ev, eu⟩ := entity
          simp only [CEntity.name, CEntity.kind] at h ⊢
          cases en with
          | none =>
            simp at h
            subst h
            simp
          | some name =>
            by_cases hc : name ∈ st.exported
            · simp [hc] at h
              subst h
              simp [hc]
            · simp [hc] at h
              cases ek with
              | EnumDecl =>
                cases he : translate_enum st name (make_name st name)
                    (CEntity.mk EntityKind.EnumDecl (some name) ecmt ech ers eargs ety ev eu) with
                | none => rw [he] at h; simp at h
                | some st2 =>
                  rw [he] at h
                  simp at h
                  subst h
                  simp [hc, he, register]
              | StructDecl =>
                cases he : translate_struct st name (make_name st name)
                    (CEntity.mk EntityKind.StructDecl (some name) ecmt ech ers eargs ety ev eu) with
                | none => rw [he] at h; simp at h
                | some st2 =>
                  rw [he] at h
                  simp at h
                  subst h
                  simp [hc, he, register]
              | TypedefDecl =>
                cases he : translate_typedef st name (make_name st name)
                    (CEntity.mk EntityKind.TypedefDecl (some name) ecmt ech ers eargs ety ev eu) with
                | none => rw [he] at h; simp at h
                | some r =>
                  rw [he] at h
                  simp at h
                  have hf := translate_typedef_fields st name (make_name st name)
                    (CEntity.mk EntityKind.TypedefDecl (some name) ecmt ech ers eargs ety ev eu) r he
                  cases hr1 : r.1 with
                  | true =>
                    rw [hr1] at h
                    simp at h
                    subst h
                    simp [hc, he, hr1, register]
                  | false =>
                    rw [hr1] at h
                    simp at h
                    subst h
                    have hr2 := hf.2.2.2.2.2 hr1
                    rw [hr2]
                    simp [hc, he, hr1, hr2]
              | FunctionDecl =>
                simp at h
                subst h
                simp [hc]
              | FieldDecl =>
                simp at h
                subst h
                simp [hc]
              | EnumConstantDecl =>
                simp at h
                subst h
                simp [hc]
              | Other s =>
                simp at h
                subst h
                simp [hc]

theorem c1_witness : parse_type 10 exStS exRecTyS = some exStS :=
  c1_export_once_dedup.2.2.2 10 (Translator.new exOpts) exRecTyS exStS (by rfl)

theorem reg_inv_of_fields (st st2 : Translator) (he : st2.exported = st.exported)
    (ht : st2.typenames = st.typenames) (h : reg_inv st) : reg_inv st2 := by
  intro p hp
  rw [ht] at hp
  rw [he]
  exact h p hp

theorem reg_inv_register (st : Translator) (n x : String) (h : reg_inv st) :
    reg_inv (register st n x) := by
  intro p hp
  simp only [register] at hp ⊢
  rcases List.mem_cons.mp hp with hp | hp
  · subst hp
    simp
  · have hb := h p hp
    have h2 : p.1 ∈ st.exported := by simpa using hb
    simp [h2]

theorem opt_foldl_preserve {α β : Type} (P : β → Prop) (f : β → α → Option β)
    (hf : ∀ b a b', P b → f b a = some b' → P b') :
    ∀ (l : List α) (b b' : β), P b → opt_foldl f b l = some b' → P b' := by
  intro l
  induction l with
  | nil =>
    intro b b' hb h
    simp [opt_foldl] at h
    subst h
    exact hb
  | cons a rest ih =>
    intro b b' hb h
    simp only [opt_foldl] at h
    cases hfa : f b a with
    | none => rw [hfa] at h; simp at h
    | some b2 =>
      rw [hfa] at h
      simp at h
      exact ih b2 b' (hf b a b2 hb hfa) h

theorem reg_inv_parse_type (fuel : Nat) (st : Translator) (t : CType) (st' : Translator)
    (hinv : reg_inv st) (h : parse_type fuel st t = some st') : reg_inv st' := by
  induction fuel generalizing st t st' with
  | zero => simp [parse_type] at h
  | succ f ih =>
    obtain ⟨k, cn, pe, dc, rs, ag, fl⟩ := t
    rw [parse_type] at h
    simp only [CType.kind, CType.pointee, CType.decl] at h
    cases k
    case Pointer =>
      cases pe with
      | none => simp at h
      | some pt =>
        simp at h
        exact ih st pt st' hinv h
    all_goals
      cases dc with
      | none =>
        simp at h
        subst h
        exact hinv
      | some entity =>
        obtain ⟨ek, en, ecmt, ech, ers, eargs, ety, ev, eu⟩ := entity
        simp only [CEntity.name, CEntity.kind] at h
        cases en with
        | none =>
          simp at h
          subst h
          exact hinv
        | some name =>
          by_cases hc : name ∈ st.exported
          · simp [hc] at h
            subst h
            exact hinv
          · simp [hc] at h
            cases ek with
            | EnumDecl =>
              cases he : translate_enum st name (make_name st name)
                  (CEntity.mk EntityKind.EnumDecl (some name) ecmt ech ers eargs ety ev eu) with
              | none => rw [he] at h; simp at h
              | some st2 =>
                rw [he] at h
                simp at h
                subst h
                have hf := translate_enum_fields st name (make_name st name)
                  (CEntity.mk EntityKind.EnumDecl (some name) ecmt ech ers eargs ety ev eu) st2 he
                exact reg_inv_register st2 name (make_name st name)
                  (reg_inv_of_fields st st2 hf.2.1 hf.2.2.1 hinv)
            | StructDecl =>
              cases he : translate_struct st name (make_name st name)
                  (CEntity.mk EntityKind.StructDecl (some name) ecmt ech ers eargs ety ev eu) with
              | none => rw [he] at h; simp at h
              | some st2 =>
                rw [he] at h
                simp at h
                subst h
                have hf := translate_struct_fields st name (make_name st name)
                  (CEntity.mk EntityKind.StructDecl (some name) ecmt ech ers eargs ety ev eu) st2 he
                exact reg_inv_register st2 name (make_name st name)
                  (reg_inv_of_fields st st2 hf.2.1 hf.2.2.1 hinv)
            | TypedefDecl =>
              cases he : translate_typedef st name (make_name st name)
                  (CEntity.mk EntityKind.TypedefDecl (some name) ecmt ech ers eargs ety ev eu) with
              | none => rw [he] at h; simp at h
              | some r =>
                rw [he] at h
                simp at h
                have hf := translate_typedef_fields st name (make_name st name)
                  (CEntity.mk EntityKind.TypedefDecl (some name) ecmt ech ers eargs ety ev eu) r he
                have hr : reg_inv r.2 := reg_inv_of_fields st r.2 hf.2.1 hf.2.2.1 hinv
                cases hr1 : r.1 with
                | true =>
                  rw [hr1] at h
                  simp at h
                  subst h
                  exact reg_inv_register r.2 name (make_name st name) hr
                | false =>
                  rw [hr1] at h
                  simp at h
                  subst h
                  exact hr
            | FunctionDecl =>
              simp at h
              subst h
              exact hinv
            | FieldDecl =>
              simp at h
              subst h
              exact hinv
            | EnumConstantDecl =>
              simp at h
              subst h
              exact hinv
            | Other s =>
              simp at h
              subst h
              exact hinv

theorem reg_inv_parse_function_arg (fuel : Nat) (xn : String) (acc acc' : Translator × Nat)
    (arg : CEntity) (hinv : reg_inv acc.1) (h : parse_function_arg fuel xn acc arg = some acc') :
    reg_inv acc'.1 := by
  unfold parse_function_arg at h
  cases hty : arg.typeOf with
  | none => rw [hty] at h; simp at h
  | some ty =>
    rw [hty] at h
    simp only [Option.bind_eq_bind, Option.some_bind] at h
    cases hk : (canonicalType ty).kind <;> rw [hk] at h <;> simp only [] at h
    case Pointer =>
      cases hp : (canonicalType ty).pointee with
      | none => rw [hp] at h; simp at h
      | some pt =>
        rw [hp] at h
        simp only [Option.bind_eq_bind, Option.some_bind] at h
        cases hpk : pt.kind <;> rw [hpk] at h
        case FunctionPrototype =>
          cases hfd : FuncDef.from_type fuel acc.1.typenames pt with
          | none => rw [hfd] at h; simp at h
          | some fd =>
            rw [hfd] at h
            simp at h
            rw [← h]
            intro p hp2
            exact hinv p hp2
        case FunctionNoPrototype =>
          cases hfd : FuncDef.from_type fuel acc.1.typenames pt with
          | none => rw [hfd] at h; simp at h
          | some fd =>
            rw [hfd] at h
            simp at h
            rw [← h]
            intro p hp2
            exact hinv p hp2
        all_goals {
          cases hpt : parse_type fuel acc.1 ty with
          | none => rw [hpt] at h; simp at h
          | some st2 =>
            rw [hpt] at h
            simp at h
            rw [← h]
            exact reg_inv_parse_type fuel acc.1 ty st2 hinv hpt
        }
    all_goals {
      cases hpt : parse_type fuel acc.1 ty with
      | none => rw [hpt] at h; simp at h
      | some st2 =>
        rw [hpt] at h
        simp at h
        rw [← h]
        exact reg_inv_parse_type fuel acc.1 ty st2 hinv hpt
    }

theorem reg_inv_parse_function (fuel : Nat) (st : Translator) (n : String) (e : CEntity)
    (st' : Translator) (hinv : reg_inv st) (h : parse_function fuel st n e = some st') :
    reg_inv st' := by
  unfold parse_function at h
  cases hres : e.resultType with
  | none => rw [hres] at h; simp at h
  | some res =>
    rw [hres] at h
    simp only [Option.bind_eq_bind, Option.some_bind] at h
    cases hargs : e.arguments with
    | none => rw [hargs] at h; simp at h
    | some args =>
      rw [hargs] at h
      simp only [Option.bind_eq_bind, Option.some_bind] at h
      cases hpt : parse_type fuel st res with
      | none => rw [hpt] at h; simp at h
      | some st2 =>
        rw [hpt] at h
        simp only [Option.bind_eq_bind, Option.some_bind] at h
        cases hfold : opt_foldl (parse_function_arg fuel (make_name st n)) (st2, 0) args with
        | none => rw [hfold] at h; simp at h
        | some acc =>
          rw [hfold] at h
          simp only [Option.bind_eq_bind, Option.some_bind] at h
          cases hfd : FuncDef.from_entity fuel acc.1.typenames e with
          | none => rw [hfd] at h; simp at h
          | some fd =>
            rw [hfd] at h
            simp at h
            have h2 : reg_inv st2 := reg_inv_parse_type fuel st res st2 hinv hpt
            have h3 : reg_inv acc.1 :=
              opt_foldl_preserve (fun (a : Translator × Nat) => reg_inv a.1)
                (parse_function_arg fuel (make_name st n))
                (fun b a b' hb hf => reg_inv_parse_function_arg fuel (make_name st n) b b' a hb hf)
                args (st2, 0) acc h2 hfold
            rw [← h]
            intro p hp
            exact h3 p hp

theorem reg_inv_pass1_step (fuel : Nat) (st : Translator) (ch : CEntity) (st' : Translator)
    (hinv : reg_inv st) (h : pass1_step fuel st ch = some st') : reg_inv st' := by
  unfold pass1_step at h
  cases hn : ch.name with
  | none => rw [hn] at h; simp at h; subst h; exact hinv
  | some name =>
    rw [hn] at h
    by_cases hm : match_name st name = true
    · simp only [hm] at h
      simp at h
      cases hek : ch.kind with
      | FunctionDecl =>
        rw [hek] at h
        simp at h
        exact reg_inv_parse_function fuel st name ch st' hinv h
      | EnumDecl => rw [hek] at h; simp at h; subst h; exact hinv
      | StructDecl => rw [hek] at h; simp at h; subst h; exact hinv
      | TypedefDecl => rw [hek] at h; simp at h; subst h; exact hinv
      | FieldDecl => rw [hek] at h; simp at h; subst h; exact hinv
      | EnumConstantDecl => rw [hek] at h; simp at h; subst h; exact hinv
      | Other s => rw [hek] at h; simp at h; subst h; exact hinv
    · simp [hm] at h
      subst h
      exact hinv

theorem reg_inv_pass2_step (st : Translator) (ch : CEntity) (st' : Translator)
    (hinv : reg_inv st) (h : pass2_step st ch = some st') : reg_inv st' := by
  unfold pass2_step at h
  cases hn : ch.name with
  | none => rw [hn] at h; simp at h; subst h; exact hinv
  | some name =>
    rw [hn] at h
    by_cases hm : match_name st name = true
    · simp only [hm] at h
      simp only [export_once] at h
      by_cases hc : name ∈ st.exported
      · simp [hc] at h
        subst h
        exact hinv
      · simp [hc] at h
        have hinv2 : reg_inv { st with exported := name :: st.exported } := by
          intro p hp
          have hb := hinv p hp
          have h2 : p.1 ∈ st.exported := by simpa using hb
          simp [h2]
        cases hek : ch.kind with
        | EnumDecl =>
          rw [hek] at h
          simp at h
          have hf := translate_enum_fields _ name (make_name st name) ch st' h
          exact reg_inv_of_fields _ st' hf.2.1 hf.2.2.1 hinv2
        | FunctionDecl => rw [hek] at h; simp at h; subst h; exact hinv2
        | StructDecl => rw [hek] at h; simp at h; subst h; exact hinv2
        | TypedefDecl => rw [hek] at h; simp at h; subst h; exact hinv2
        | FieldDecl => rw [hek] at h; simp at h; subst h; exact hinv2
        | EnumConstantDecl => rw [hek] at h; simp at h; subst h; exact hinv2
        | Other s => rw [hek] at h; simp at h; subst h; exact hinv2
    · simp [hm] at h
      subst h
      exact hinv

/-- C10: at every point of a run every key of `typenames` is also in
`exported`: the invariant holds initially, is preserved by `parse_type` (whose
registration inserts into both registries together), by `export_once` and by
the whole `translate` entry point. -/
theorem c10_typenames_subset_exported :
    (∀ opts, reg_inv (Translator.new opts)) ∧
    (∀ st n, reg_inv st → reg_inv (export_once st n).2) ∧
    (∀ fuel st t st', reg_inv st → parse_type fuel st t = some st' → reg_inv st') ∧
    (∀ fuel st e st', reg_inv st → translate fuel st e = some st' → reg_inv st') := by
  refine ⟨?_, ?_, ?_, ?_⟩
  · intro opts p hp
    simp [Translator.new] at hp
  · intro st n h
    unfold export_once
    by_cases hc : st.exported.contains n = true
    · rw [if_pos hc]
      exact h
    · rw [if_neg hc]
      intro p hp
      have hb := h p hp
      have h2 : p.1 ∈ st.exported := by simpa using hb
      simp [h2]
  · intro fuel st t st' h hp
    exact reg_inv_parse_type fuel st t st' h hp
  · intro fuel st e st' hinv h
    unfold translate at h
    simp only [Option.bind_eq_bind] at h
    cases h1 : opt_foldl (pass1_step fuel)
        { st with coder := (st.coder.line ("import " ++ sq ++ "dart:ffi" ++ sq ++ ";")).line ("") }
        e.children with
    | none => rw [h1] at h; simp at h
    | some stA =>
      rw [h1] at h
      simp only [Option.some_bind] at h
      cases h2 : opt_foldl pass2_step stA e.children with
      | none => rw [h2] at h; simp at h
      | some stB =>
        rw [h2] at h
        simp only [Option.some_bind] at h
        have hM : reg_inv { st with
            coder := (st.coder.line ("import " ++ sq ++ "dart:ffi" ++ sq ++ ";")).line ("") } :=
          fun p hp => hinv p hp
        have hA : reg_inv stA :=
          opt_foldl_preserve reg_inv (pass1_step fuel)
            (fun b a b' hb hf => reg_inv_pass1_step fuel b a b' hb hf)
            e.children _ stA hM h1
        have hB : reg_inv stB :=
          opt_foldl_preserve reg_inv pass2_step
            (fun b a b' hb hf => reg_inv_pass2_step b a b' hb hf)
            e.children stA stB hA h2
        cases hcm : stB.coder.comment ("Library class") with
        | none => rw [hcm] at h; simp at h
        | some coder2 =>
          rw [hcm] at h
          simp only [Option.some_bind] at h
          cases h3 : class_body
              { stB with coder := coder2 }.options.class_name
              { stB with coder := coder2 }.calls
              { stB with coder := coder2 }.callbacks with
          | none => rw [h3] at h; simp at h
          | some body =>
            rw [h3] at h
            simp at h
            rw [← h]
            intro p hp
            exact hB p hp

theorem c10_witness :
    reg_inv ((translate 10 (Translator.new exOpts) exRootStruct).getD (Translator.new exOpts)) :=
  c10_typenames_subset_exported.2.2.2 10 (Translator.new exOpts) exRootStruct
    ((translate 10 (Translator.new exOpts) exRootStruct).getD (Translator.new exOpts))
    (by intro p hp; simp [Translator.new] at hp) (by rfl)

theorem parse_type_keeps (fuel : Nat) (st : Translator) (t : CType) (st' : Translator)
    (h : parse_type fuel st t = some st') :
    st'.callbacks = st.callbacks ∧ st'.calls = st.calls ∧ st'.options = st.options := by
  induction fuel generalizing st t st' with
  | zero => simp [parse_type] at h
  | succ f ih =>
    obtain ⟨k, cn, pe, dc, rs, ag, fl⟩ := t
    rw [parse_type] at h
    simp only [CType.kind, CType.pointee, CType.decl] at h
    cases k
    case Pointer =>
      cases pe with
      | none => simp at h
      | some pt =>
        simp at h
        exact ih st pt st' h
    all_goals
      cases dc with
      | none =>
        simp at h
        subst h
        exact ⟨rfl, rfl, rfl⟩
      | some entity =>
        obtain ⟨ek, en, ecmt, ech, ers, eargs, ety, ev, eu⟩ := entity
        simp only [CEntity.name, CEntity.kind] at h
        cases en with
        | none =>
          simp at h
          subst h
          exact ⟨rfl, rfl, rfl⟩
        | some name =>
          by_cases hc : name ∈ st.exported
          · simp [hc] at h
            subst h
            exact ⟨rfl, rfl, rfl⟩
          · simp [hc] at h
            cases ek with
            | EnumDecl =>
              cases he : translate_enum st name (make_name st name)
                  (CEntity.mk EntityKind.EnumDecl (some name) ecmt ech ers eargs ety ev eu) with
              | none => rw [he] at h; simp at h
              | some st2 =>
                rw [he] at h
                simp at h
                subst h
                have hf := translate_enum_fields st name (make_name st name)
                  (CEntity.mk EntityKind.EnumDecl (some name) ecmt ech ers eargs ety ev eu) st2 he
                exact ⟨hf.2.2.2.2, hf.2.2.2.1, hf.1⟩
            | StructDecl =>
              cases he : translate_struct st name (make_name st name)
                  (CEntity.mk EntityKind.StructDecl (some name) ecmt ech ers eargs ety ev eu) with
              | none => rw [he] at h; simp at h
              | some st2 =>
                rw [he] at h
                simp at h
                subst h
                have hf := translate_struct_fields st name (make_name st name)
                  (CEntity.mk EntityKind.StructDecl (some name) ecmt ech ers eargs ety ev eu) st2 he
                exact ⟨hf.2.2.2.2, hf.2.2.2.1, hf.1⟩
            | TypedefDecl =>
              cases he : translate_typedef st name (make_name st name)
                  (CEntity.mk EntityKind.TypedefDecl (some name) ecmt ech ers eargs ety ev eu) with
              | none => rw [he] at h; simp at h
              | some r =>
                rw [he] at h
                simp at h
                have hf := translate_typedef_fields st name (make_name st name)
                  (CEntity.mk EntityKind.TypedefDecl (some name) ecmt ech ers eargs ety ev eu) r he
                cases hr1 : r.1 with
                | true =>
                  rw [hr1] at h
                  simp at h
                  subst h
                  exact ⟨hf.2.2.2.2.1, hf.2.2.2.1, hf.1⟩
                | false =>
                  rw [hr1] at h
                  simp at h
                  subst h
                  exact ⟨hf.2.2.2.2.1, hf.2.2.2.1, hf.1⟩
            | FunctionDecl => simp at h; subst h; exact ⟨rfl, rfl, rfl⟩
            | FieldDecl => simp at h; subst h; exact ⟨rfl, rfl, rfl⟩
            | EnumConstantDecl => simp at h; subst h; exact ⟨rfl, rfl, rfl⟩
            | Other s => simp at h; subst h; exact ⟨rfl, rfl, rfl⟩

theorem underscore_cb (xn t : String) : xn ++ "_" ++ ("cb" ++ t) = xn ++ "_cb" ++ t := by
  have h1 : ("_" : String) ++ "cb" = "_cb" := rfl
  rw [String.append_assoc, ← String.append_assoc ("_") ("cb") t, h1, ← String.append_assoc]

theorem parse_function_args_callbacks (fuel : Nat) (xn : String) :
    ∀ (args : List CEntity) (acc acc' : Translator × Nat),
      opt_foldl (parse_function_arg fuel xn) acc args = some acc' →
      acc'.1.callbacks.map Prod.fst =
        acc.1.callbacks.map Prod.fst ++ spec_callback_keys xn args acc.2 := by
  intro args
  induction args with
  | nil =>
    intro acc acc' h
    simp [opt_foldl] at h
    subst h
    simp [spec_callback_keys]
  | cons arg rest ih =>
    intro acc acc' h
    simp only [opt_foldl] at h
    cases hfa : parse_function_arg fuel xn acc arg with
    | none => rw [hfa] at h; simp at h
    | some acc2 =>
      rw [hfa] at h
      simp only [Option.bind_eq_bind, Option.some_bind] at h
      have hrec := ih acc2 acc' h
      unfold parse_function_arg at hfa
      cases hty : arg.typeOf with
      | none => rw [hty] at hfa; simp at hfa
      | some ty =>
        rw [hty] at hfa
        simp only [Option.bind_eq_bind, Option.some_bind] at hfa
        cases hk : (canonicalType ty).kind <;> rw [hk] at hfa
        case Pointer =>
          cases hp : (canonicalType ty).pointee with
          | none => rw [hp] at hfa; simp at hfa
          | some pt =>
            rw [hp] at hfa
            simp only [Option.bind_eq_bind, Option.some_bind] at hfa
            cases hpk : pt.kind <;> rw [hpk] at hfa
            case FunctionPrototype =>
              have hfn : fnptr_arg arg = true := by
                simp [fnptr_arg, hty, hk, hp, hpk]
              cases hfd : FuncDef.from_type fuel acc.1.typenames pt with
              | none => rw [hfd] at hfa; simp at hfa
              | some fd =>
                rw [hfd] at hfa
                simp only [Option.some_bind] at hfa
                cases han : arg.name with
                | some n =>
                  rw [han] at hfa
                  simp at hfa
                  subst hfa
                  rw [hrec]
                  simp [spec_callback_keys, hfn, han]
                | none =>
                  rw [han] at hfa
                  simp at hfa
                  subst hfa
                  rw [hrec]
                  simp [spec_callback_keys, hfn, han]
                  exact underscore_cb xn (toString acc.2)
            case FunctionNoPrototype =>
              have hfn : fnptr_arg arg = true := by
                simp [fnptr_arg, hty, hk, hp, hpk]
              cases hfd : FuncDef.from_type fuel acc.1.typenames pt with
              | none => rw [hfd] at hfa; simp at hfa
              | some fd =>
                rw [hfd] at hfa
                simp only [Option.some_bind] at hfa
                cases han : arg.name with
                | some n =>
                  rw [han] at hfa
                  simp at hfa
                  subst hfa
                  rw [hrec]
                  simp [spec_callback_keys, hfn, han]
                | none =>
                  rw [han] at hfa
                  simp at hfa
                  subst hfa
                  rw [hrec]
                  simp [spec_callback_keys, hfn, han]
                  exact underscore_cb xn (toString acc.2)
            all_goals {
              have hfn : fnptr_arg arg = false := by
                simp [fnptr_arg, hty, hk, hp, hpk]
              cases hpt : parse_type fuel acc.1 ty with
              | none => rw [hpt] at hfa; simp at hfa
              | some st2 =>
                rw [hpt] at hfa
                simp at hfa
                subst hfa
                rw [hrec]
                have hkeep := parse_type_keeps fuel acc.1 ty st2 hpt
                simp [spec_callback_keys, hfn, hkeep.1]
            }
        all_goals {
          have hfn : fnptr_arg arg = false := by
            simp [fnptr_arg, hty, hk]
          cases hpt : parse_type fuel acc.1 ty with
          | none => rw [hpt] at hfa; simp at hfa
          | some st2 =>
            rw [hpt] at hfa
            simp at hfa
            subst hfa
            rw [hrec]
            have hkeep := parse_type_keeps fuel acc.1 ty st2 hpt
            simp [spec_callback_keys, hfn, hkeep.1]
        }

/-- C9 counterexample: the function-pointer argument yields a callback
descriptor, but it is additionally still inlined into the function's own
translated call signature (as a pointer-to-native-function type), refuting
"instead of being inlined into the call signature". -/
theorem c9_counterexample :
    (parse_function 10 (Translator.new exOpts) ("g") exFunG).map
        (fun s => (s.callbacks.map Prod.fst, s.calls.map (fun p => (p.1, p.2.dart)))) =
      some (["g_cb0"],
        [("g", "int Function(Pointer<NativeFunction<Void Function(Int32)>>)")]) := by
  rfl

/-- C9 (amended): within one function, pointer-to-function-prototype arguments
without a declared name are auto-named `cb0`, `cb1`, … in argument order (the
counter advancing only on unnamed occurrences), and each such argument yields
a callback descriptor keyed by the function's rewritten name joined to the
argument name with an underscore; the argument also remains inlined in the
function's translated signature. -/
theorem c9_callback_naming (fuel : Nat) (st : Translator) (name : String) (e : CEntity)
    (st' : Translator) (h : parse_function fuel st name e = some st') :
    st'.callbacks.map Prod.fst =
      st.callbacks.map Prod.fst ++
        spec_callback_keys (make_name st name) (e.arguments.getD []) 0 := by
  unfold parse_function at h
  cases hres : e.resultType with
  | none => rw [hres] at h; simp at h
  | some res =>
    rw [hres] at h
    simp only [Option.bind_eq_bind, Option.some_bind] at h
    cases hargs : e.arguments with
    | none => rw [hargs] at h; simp at h
    | some args =>
      rw [hargs] at h
      simp only [Option.bind_eq_bind, Option.some_bind] at h
      cases hpt : parse_type fuel st res with
      | none => rw [hpt] at h; simp at h
      | some st2 =>
        rw [hpt] at h
        simp only [Option.bind_eq_bind, Option.some_bind] at h
        cases hfold : opt_foldl (parse_function_arg fuel (make_name st name)) (st2, 0) args with
        | none => rw [hfold] at h; simp at h
        | some acc =>
          rw [hfold] at h
          simp only [Option.bind_eq_bind, Option.some_bind] at h
          cases hfd : FuncDef.from_entity fuel acc.1.typenames e with
          | none => rw [hfd] at h; simp at h
          | some fd =>
            rw [hfd] at h
            simp at h
            have hkeys := parse_function_args_callbacks fuel (make_name st name) args
              (st2, 0) acc hfold
            have hkeep := parse_type_keeps fuel st res st2 hpt
            rw [← h]
            rw [show ({ acc.1 with calls := acc.1.calls ++ [(make_name st name, fd)] } :
                  Translator).callbacks = acc.1.callbacks from rfl]
            rw [hkeys]
            simp [hargs, hkeep.1]

theorem c9_witness :
    ((parse_function 10 (Translator.new exOpts) ("f") exFunF).getD
        (Translator.new exOpts)).callbacks.map Prod.fst =
      (Translator.new exOpts).callbacks.map Prod.fst ++
        spec_callback_keys (make_name (Translator.new exOpts) ("f"))
          (exFunF.arguments.getD []) 0 :=
  c9_callback_naming 10 (Translator.new exOpts) ("f") exFunF
    ((parse_function 10 (Translator.new exOpts) ("f") exFunF).getD (Translator.new exOpts))
    (by rfl)

/-- C3 counterexample: a scope-matched top-level struct declaration is NOT
translated by the second pass — the run over a root containing only
`struct S` renders exactly the same output as the run over an empty root
(the struct is merely marked exported), refuting "the second pass translates
every remaining scope-matched top-level enum, struct, and typedef
declaration". -/
theorem c3_counterexample :
    (translate 10 (Translator.new exOpts) exRootStruct).map
        (fun s => render_coder 20 s.coder) =
      (translate 10 (Translator.new exOpts) exRootEmpty).map
        (fun s => render_coder 20 s.coder) ∧
    (translate 10 (Translator.new exOpts) exRootStruct).map (fun s => s.exported) =
      some (["S"]) := by
  exact ⟨rfl, rfl⟩

/-- C3 (amended): the translate entry point makes two passes over the root's
top-level children: the first pass sends scope-matched function declarations
through `parse_function` (which pulls in pointer-referenced types) and skips
every other kind; the second pass marks every remaining scope-matched child as
exported but translates only enum declarations — structs and typedefs at top
level are marked without being translated. -/
theorem c3_two_pass_enum_only :
    (∀ fuel st ch name, ch.name = some name → match_name st name = true →
       ch.kind = EntityKind.FunctionDecl →
       pass1_step fuel st ch = parse_function fuel st name ch) ∧
    (∀ fuel st ch name, ch.name = some name → match_name st name = true →
       ch.kind ≠ EntityKind.FunctionDecl → pass1_step fuel st ch = some st) ∧
    (∀ st ch name, ch.name = some name → match_name st name = true →
       st.exported.contains name = false → ch.kind = EntityKind.EnumDecl →
       pass2_step st ch =
         translate_enum { st with exported := name :: st.exported } name (make_name st name) ch) ∧
    (∀ st ch name, ch.name = some name → match_name st name = true →
       st.exported.contains name = false → ch.kind ≠ EntityKind.EnumDecl →
       pass2_step st ch = some { st with exported := name :: st.exported }) ∧
    (∀ st ch name, ch.name = some name → match_name st name = true →
       st.exported.contains name = true → pass2_step st ch = some st) := by
  refine ⟨?_, ?_, ?_, ?_, ?_⟩
  · intro fuel st ch name hn hm hk
    unfold pass1_step
    rw [hn, hk]
    simp [hm]
  · intro fuel st ch name hn hm hk
    unfold pass1_step
    rw [hn]
    simp only [hm, if_true]
  · intro st ch name hn hm hc hk
    have hc2 : ¬ name ∈ st.exported := by simpa using hc
    unfold pass2_step
    rw [hn, hk]
    simp [hm, export_once, hc2]
  · intro st ch name hn hm hc hk
    have hc2 : ¬ name ∈ st.exported := by simpa using hc
    unfold pass2_step
    rw [hn]
    simp only [hm, if_true]
    simp only [export_once]
    cases hek : ch.kind <;> simp [hc2]
  · intro st ch name hn hm hc
    have hc2 : name ∈ st.exported := by simpa using hc
    unfold pass2_step
    rw [hn]
    simp [hm, export_once, hc2]

theorem c3_witness :
    pass2_step (Translator.new exOpts) exStructS =
      some { Translator.new exOpts with exported := "S" :: (Translator.new exOpts).exported } :=
  c3_two_pass_enum_only.2.2.2.1 (Translator.new exOpts) exStructS ("S")
    (by rfl) (by rfl) (by decide) (by decide)

theorem type_tables_agree (k : TypeKind) : (cffi_type k).isSome = (dart_type k).isSome := by
  cases k <;> rfl

theorem translate_type_table_miss (fuel : Nat) (tn : List (String × String)) (t : CType)
    (h1 : cffi_type (canonicalType t).kind = none)
    (h2 : dart_type (canonicalType t).kind = none) :
    translate_type fuel tn t false = translate_type fuel tn t true := by
  cases fuel with
  | zero => rfl
  | succ f =>
    simp only [translate_type, h1, h2]
    simp

theorem translate_type_isSome_ffi (fuel : Nat) (tn : List (String × String)) (t : CType) :
    (translate_type fuel tn t false).isSome = (translate_type fuel tn t true).isSome := by
  cases fuel with
  | zero => rfl
  | succ f =>
    by_cases h1 : cffi_type (canonicalType t).kind = none
    · have hag := type_tables_agree (canonicalType t).kind
      rw [h1] at hag
      cases h2 : dart_type (canonicalType t).kind with
      | none => rw [translate_type_table_miss (f+1) tn t h1 h2]
      | some s => rw [h2] at hag; simp at hag
    · cases hc : cffi_type (canonicalType t).kind with
      | none => exact absurd hc h1
      | some s =>
        have hag := type_tables_agree (canonicalType t).kind
        rw [hc] at hag
        cases hdd : dart_type (canonicalType t).kind with
        | none => rw [hdd] at hag; simp at hag
        | some s2 => simp [translate_type, hc, hdd]

theorem opt_map_list_isSome {α β : Type} (f g : α → Option β)
    (h : ∀ a, (f a).isSome = (g a).isSome) :
    ∀ l, (opt_map_list f l).isSome = (opt_map_list g l).isSome := by
  intro l
  induction l with
  | nil => rfl
  | cons a rest ih =>
    simp only [opt_map_list]
    cases hfa : f a with
    | none =>
      have hga0 := h a
      rw [hfa] at hga0
      cases hga : g a with
      | none => rfl
      | some b => rw [hga] at hga0; simp at hga0
    | some b =>
      cases hga : g a with
      | none =>
        have hga0 := h a
        rw [hfa, hga] at hga0
        simp at hga0
      | some b2 =>
        simp only [Option.bind_eq_bind, Option.some_bind]
        cases hr : opt_map_list f rest with
        | none =>
          have h2 := ih
          rw [hr] at h2
          cases hr2 : opt_map_list g rest with
          | none => rfl
          | some l2 => rw [hr2] at h2; simp at h2
        | some l1 =>
          have h2 := ih
          rw [hr] at h2
          cases hr2 : opt_map_list g rest with
          | none => rw [hr2] at h2; simp at h2
          | some l2 => simp

theorem translate_types_f_isSome (fuel : Nat) (tn : List (String × String)) (ts : List CType) :
    (translate_types_f (translate_type fuel tn) ts false).isSome =
    (translate_types_f (translate_type fuel tn) ts true).isSome := by
  unfold translate_types_f
  have hl := opt_map_list_isSome (fun t => translate_type fuel tn t false)
    (fun t => translate_type fuel tn t true) (fun t => translate_type_isSome_ffi fuel tn t) ts
  cases h1 : opt_map_list (fun t => translate_type fuel tn t false) ts <;>
    cases h2 : opt_map_list (fun t => translate_type fuel tn t true) ts <;>
      rw [h1, h2] at hl <;> simp_all

/-- C5: inside interop wrappers the want_native flag is ignored — a pointer
type translates, for either flag, to the pointer wrapper around the pointee
translated natively, and a function-prototype type translates, for either
flag, to a `NativeFunction` expression whose return and argument types are all
built with the native (ffi) representation. -/
theorem c5_wrappers_always_native :
    (∀ (fuel : Nat) (tn : List (String × String)) (t : CType),
       (canonicalType t).kind = TypeKind.Pointer →
       (∀ ffi, translate_type fuel tn t ffi = translate_type fuel tn t true) ∧
       translate_type (fuel+1) tn t true =
         ((t.pointee <|> (canonicalType t).pointee).bind (fun pt =>
            (translate_type fuel tn pt true).map (fun s => "Pointer<" ++ s ++ ">")))) ∧
    (∀ (fuel : Nat) (tn : List (String × String)) (t : CType),
       ((canonicalType t).kind = TypeKind.FunctionPrototype ∨
        (canonicalType t).kind = TypeKind.FunctionNoPrototype) →
       (∀ ffi, translate_type fuel tn t ffi = translate_type fuel tn t true) ∧
       translate_type (fuel+1) tn t true =
         (FuncDef.from_type fuel tn (canonicalType t)).map
           (fun cb => "NativeFunction<" ++ cb.cffi ++ ">")) ∧
    (∀ (fuel : Nat) (tn : List (String × String)) (ct : CType),
       (FuncDef.from_type fuel tn ct).map (fun fd => fd.cffi) =
         ((match ct.result with
           | some t2 => translate_type fuel tn t2 true
           | none => some ("Void")).bind (fun r =>
          (match ct.argTypes with
           | some ts => translate_types_f (translate_type fuel tn) ts true
           | none => some ("")).bind (fun a =>
          some (r ++ (" Function(") ++ a ++ (")")))))) := by
  refine ⟨?_, ?_, ?_⟩
  · intro fuel tn t h
    have h1 : cffi_type (canonicalType t).kind = none := by rw [h]; rfl
    have h2 : dart_type (canonicalType t).kind = none := by rw [h]; rfl
    refine ⟨?_, ?_⟩
    · intro ffi
      cases ffi
      · exact translate_type_table_miss fuel tn t h1 h2
      · rfl
    · simp only [translate_type, h1, h2, h]
      simp only [Option.bind_eq_bind]
      cases hp : (t.pointee <|> (canonicalType t).pointee) with
      | none => simp [cffi_type]
      | some pt =>
        simp only [Option.some_bind]
        cases hs : translate_type fuel tn pt true <;> simp [cffi_type]
  · intro fuel tn t h
    have h1 : cffi_type (canonicalType t).kind = none := by
      rcases h with h | h <;> rw [h] <;> rfl
    have h2 : dart_type (canonicalType t).kind = none := by
      rcases h with h | h <;> rw [h] <;> rfl
    refine ⟨?_, ?_⟩
    · intro ffi
      cases ffi
      · exact translate_type_table_miss fuel tn t h1 h2
      · rfl
    · rcases h with h | h
      · simp [translate_type, h, cffi_type, FuncDef.from_type]
      · simp [translate_type, h, cffi_type, FuncDef.from_type]
  · intro fuel tn ct
    unfold FuncDef.from_type func_def_core
    cases hres : ct.result with
    | none =>
      simp only [Option.bind_eq_bind, Option.some_bind]
      cases hargs : ct.argTypes with
      | none => simp [translate_types_f, opt_map_list]
      | some ts =>
        have hargsome := translate_types_f_isSome fuel tn ts
        cases hca : translate_types_f (translate_type fuel tn) ts true with
        | none =>
          rw [hca] at hargsome
          cases hda : translate_types_f (translate_type fuel tn) ts false with
          | none => simp [hda, hca]
          | some a2 => rw [hda] at hargsome; simp at hargsome
        | some a =>
          rw [hca] at hargsome
          cases hda : translate_types_f (translate_type fuel tn) ts false with
          | none => rw [hda] at hargsome; simp at hargsome
          | some a2 => simp [hda, hca]
    | some t2 =>
      have hressome := translate_type_isSome_ffi fuel tn t2
      cases hcr : translate_type fuel tn t2 true with
      | none =>
        rw [hcr] at hressome
        cases hdr : translate_type fuel tn t2 false with
        | none => simp [hdr, hcr]
        | some r2 => rw [hdr] at hressome; simp at hressome
      | some r =>
        rw [hcr] at hressome
        cases hdr : translate_type fuel tn t2 false with
        | none => rw [hdr] at hressome; simp at hressome
        | some r2 =>
          simp only [hcr, hdr, Option.bind_eq_bind, Option.some_bind]
          cases hargs : ct.argTypes with
          | none => simp [translate_types_f, opt_map_list]
          | some ts =>
            have hargsome := translate_types_f_isSome fuel tn ts
            cases hca : translate_types_f (translate_type fuel tn) ts true with
            | none =>
              rw [hca] at hargsome
              cases hda : translate_types_f (translate_type fuel tn) ts false with
              | none => simp [hda, hca]
              | some a2 => rw [hda] at hargsome; simp at hargsome
            | some a =>
              rw [hca] at hargsome
              cases hda : translate_types_f (translate_type fuel tn) ts false with
              | none => rw [hda] at hargsome; simp at hargsome
              | some a2 => simp [hda, hca]

theorem c5_witness :
    translate_type 5 [] exPtrProto false = translate_type 5 [] exPtrProto true ∧
    translate_type 5 [] exProtoTy false = translate_type 5 [] exProtoTy true ∧
    translate_type 5 [] exPtrProto true =
      ((exPtrProto.pointee <|> (canonicalType exPtrProto).pointee).bind (fun pt =>
         (translate_type 4 [] pt true).map (fun s => "Pointer<" ++ s ++ ">"))) :=
  ⟨(c5_wrappers_always_native.1 5 [] exPtrProto (by decide)).1 false,
   (c5_wrappers_always_native.2.1 5 [] exProtoTy (by decide)).1 false,
   (c5_wrappers_always_native.1 4 [] exPtrProto (by decide)).2⟩

theorem opt_map_list_congr {α β : Type} (f g : α → Option β) (h : ∀ a, f a = g a) :
    ∀ l, opt_map_list f l = opt_map_list g l := by
  intro l
  induction l with
  | nil => rfl
  | cons a rest ih => simp only [opt_map_list, h a, ih]

theorem translate_types_f_congr (tt1 tt2 : CType → Bool → Option String)
    (h : ∀ t ffi, tt1 t ffi = tt2 t ffi) (ts : List CType) (ffi : Bool) :
    translate_types_f tt1 ts ffi = translate_types_f tt2 ts ffi := by
  unfold translate_types_f
  rw [opt_map_list_congr (fun t => tt1 t ffi) (fun t => tt2 t ffi) (fun t => h t ffi) ts]

theorem func_def_core_congr (tt1 tt2 : CType → Bool → Option String)
    (h : ∀ t ffi, tt1 t ffi = tt2 t ffi) (res : Option CType) (args : Option (List CType)) :
    func_def_core tt1 res args = func_def_core tt2 res args := by
  unfold func_def_core
  simp only [h, translate_types_f_congr tt1 tt2 h]

theorem translate_type_lookup_congr (fuel : Nat) (tn1 tn2 : List (String × String))
    (hl : ∀ n, List.lookup n tn1 = List.lookup n tn2) :
    ∀ (t : CType) (ffi : Bool), translate_type fuel tn1 t ffi = translate_type fuel tn2 t ffi := by
  induction fuel with
  | zero => intro t ffi; rfl
  | succ f ih =>
    intro t ffi
    rw [translate_type]
    conv_rhs => rw [translate_type]
    simp only [ih, hl,
      func_def_core_congr (translate_type f tn1) (translate_type f tn2) ih]

theorem from_type_congr (fuel : Nat) (tn1 tn2 : List (String × String))
    (hl : ∀ n, List.lookup n tn1 = List.lookup n tn2) (t : CType) :
    FuncDef.from_type fuel tn1 t = FuncDef.from_type fuel tn2 t := by
  unfold FuncDef.from_type
  exact func_def_core_congr (translate_type fuel tn1) (translate_type fuel tn2)
    (fun t2 ffi2 => translate_type_lookup_congr fuel tn1 tn2 hl t2 ffi2) t.result t.argTypes

theorem translate_args_congr (fuel : Nat) (tn1 tn2 : List (String × String))
    (hl : ∀ n, List.lookup n tn1 = List.lookup n tn2) (args : List CEntity) (ffi : Bool) :
    translate_args fuel tn1 args ffi = translate_args fuel tn2 args ffi := by
  unfold translate_args
  simp only [translate_type_lookup_congr fuel tn1 tn2 hl]

theorem from_entity_congr (fuel : Nat) (tn1 tn2 : List (String × String))
    (hl : ∀ n, List.lookup n tn1 = List.lookup n tn2) (e : CEntity) :
    FuncDef.from_entity fuel tn1 e = FuncDef.from_entity fuel tn2 e := by
  unfold FuncDef.from_entity
  simp only [translate_type_lookup_congr fuel tn1 tn2 hl,
    translate_args_congr fuel tn1 tn2 hl]

theorem translate_enum_equiv (s1 s2 : Translator) (n x : String) (e : CEntity)
    (h : StEquiv s1 s2) :
    OptRel StEquiv (translate_enum s1 n x e) (translate_enum s2 n x e) := by
  unfold translate_enum
  rw [h.2.2.2.2.2]
  cases hcm : add_comment_opt s2.coder e.comment with
  | none => exact trivial
  | some coder2 =>
    simp only [Option.bind_eq_bind, Option.some_bind]
    cases hb : opt_foldl (enum_const_line n) Coder.empty e.children with
    | none => exact trivial
    | some b =>
      simp only [Option.some_bind]
      exact ⟨h.1, h.2.1, h.2.2.1, h.2.2.2.1, h.2.2.2.2.1, rfl⟩

theorem translate_struct_equiv (s1 s2 : Translator) (n x : String) (e : CEntity)
    (h : StEquiv s1 s2) :
    OptRel StEquiv (translate_struct s1 n x e) (translate_struct s2 n x e) := by
  unfold translate_struct
  rw [h.2.2.2.2.2]
  cases hcm : add_comment_opt s2.coder e.comment with
  | none => exact trivial
  | some coder2 =>
    simp only [Option.bind_eq_bind, Option.some_bind]
    cases hb : opt_foldl translate_field Coder.empty e.children with
    | none => exact trivial
    | some b =>
      simp only [Option.some_bind]
      exact ⟨h.1, h.2.1, h.2.2.1, h.2.2.2.1, h.2.2.2.2.1, rfl⟩

theorem translate_typedef_equiv (s1 s2 : Translator) (n x : String) (e : CEntity)
    (h : StEquiv s1 s2) :
    OptRel (fun (r1 r2 : Bool × Translator) => r1.1 = r2.1 ∧ StEquiv r1.2 r2.2)
      (translate_typedef s1 n x e) (translate_typedef s2 n x e) := by
  unfold translate_typedef
  cases hu : e.underlying with
  | none => exact trivial
  | some u =>
    simp only [Option.bind_eq_bind, Option.some_bind]
    cases hk : (canonicalType u).kind
    case Record =>
      simp only []
      rw [h.2.2.2.2.2]
      cases hcm : add_comment_opt s2.coder e.comment with
      | none => exact trivial
      | some coder2 =>
        simp only [Option.bind_eq_bind, Option.some_bind]
        cases hf : (canonicalType u).fields with
        | none => exact trivial
        | some fs =>
          simp only [Option.some_bind]
          cases hb : opt_foldl translate_field Coder.empty fs with
          | none => exact trivial
          | some b =>
            simp only [Option.some_bind]
            exact ⟨rfl, h.1, h.2.1, h.2.2.1, h.2.2.2.1, h.2.2.2.2.1, rfl⟩
    all_goals exact ⟨rfl, h⟩

theorem export_once_equiv (s1 s2 : Translator) (n : String) (h : StEquiv s1 s2) :
    (export_once s1 n).1 = (export_once s2 n).1 ∧
      StEquiv (export_once s1 n).2 (export_once s2 n).2 := by
  unfold export_once
  have hc := h.2.1 n
  by_cases hb : s1.exported.contains n = true
  · rw [if_pos hb, if_pos (hc.symm.trans hb)]
    exact ⟨rfl, h⟩
  · rw [if_neg hb, if_neg (fun hx => hb (hc.trans hx))]
    refine ⟨rfl, h.1, ?_, h.2.2.1, h.2.2.2.1, h.2.2.2.2.1, h.2.2.2.2.2⟩
    intro m
    simp only [List.contains_cons]
    rw [h.2.1 m]

theorem register_equiv (a b : Translator) (n x : String) (h : StEquiv a b) :
    StEquiv (register a n x) (register b n x) := by
  refine ⟨h.1, ?_, ?_, h.2.2.2.1, h.2.2.2.2.1, ?_⟩
  · intro m
    simp only [register, List.contains_cons]
    rw [h.2.1 m]
  · intro m
    simp only [register, List.lookup]
    cases hmn : m == n with
    | true => rfl
    | false => exact h.2.2.1 m
  · simp only [register]
    exact h.2.2.2.2.2

theorem opt_foldl_rel {α β γ : Type} (R : β → γ → Prop) (f : β → α → Option β)
    (g : γ → α → Option γ) (hf : ∀ b c a, R b c → OptRel R (f b a) (g c a)) :
    ∀ (l : List α) (b : β) (c : γ), R b c →
      OptRel R (opt_foldl f b l) (opt_foldl g c l) := by
  intro l
  induction l with
  | nil => intro b c h; exact h
  | cons a rest ih =>
    intro b c h
    simp only [opt_foldl, Option.bind_eq_bind]
    have hstep := hf b c a h
    cases h1 : f b a with
    | none =>
      cases h2 : g c a with
      | none => exact trivial
      | some c2 => rw [h1, h2] at hstep; exact hstep.elim
    | some b2 =>
      cases h2 : g c a with
      | none => rw [h1, h2] at hstep; exact hstep.elim
      | some c2 =>
        rw [h1, h2] at hstep
        simp only [Option.some_bind]
        exact ih b2 c2 hstep

theorem parse_type_equiv (fuel : Nat) :
    ∀ (s1 s2 : Translator) (t : CType), StEquiv s1 s2 →
      OptRel StEquiv (parse_type fuel s1 t) (parse_type fuel s2 t) := by
  induction fuel with
  | zero => intro s1 s2 t h; exact trivial
  | succ f ih =>
    intro s1 s2 t h
    obtain ⟨k, cn, pe, dc, rs, ag, fl⟩ := t
    rw [parse_type]
    conv_rhs => rw [parse_type]
    simp only [CType.kind, CType.pointee, CType.decl]
    cases k
    case Pointer =>
      cases pe with
      | none => exact trivial
      | some pt =>
        simp only [Option.bind_eq_bind, Option.some_bind]
        exact ih s1 s2 pt h
    all_goals
      cases dc with
      | none => exact h
      | some entity =>
        obtain ⟨ek, en, ecmt, ech, ers, eargs, ety, ev, eu⟩ := entity
        simp only [CEntity.name, CEntity.kind]
        cases en with
        | none => exact h
        | some name =>
          have hmn : make_name s1 name = make_name s2 name := by
            unfold make_name
            rw [h.1]
          have hc := h.2.1 name
          simp only []
          simp only [hmn]
          by_cases hb : s1.exported.contains name = true
          · rw [if_pos hb, if_pos (hc.symm.trans hb)]
            exact h
          · rw [if_neg hb, if_neg (fun hx => hb (hc.trans hx))]
            cases ek with
            | EnumDecl =>
              have hrel := translate_enum_equiv s1 s2 name (make_name s2 name)
                (CEntity.mk EntityKind.EnumDecl (some name) ecmt ech ers eargs ety ev eu) h
              cases he1 : translate_enum s1 name (make_name s2 name)
                  (CEntity.mk EntityKind.EnumDecl (some name) ecmt ech ers eargs ety ev eu) with
              | none =>
                cases he2 : translate_enum s2 name (make_name s2 name)
                    (CEntity.mk EntityKind.EnumDecl (some name) ecmt ech ers eargs ety ev eu) with
                | none => exact trivial
                | some b2 => rw [he1, he2] at hrel; exact hrel.elim
              | some b1 =>
                cases he2 : translate_enum s2 name (make_name s2 name)
                    (CEntity.mk EntityKind.EnumDecl (some name) ecmt ech ers eargs ety ev eu) with
                | none => rw [he1, he2] at hrel; exact hrel.elim
                | some b2 =>
                  rw [he1, he2] at hrel
                  simp only [Option.bind_eq_bind, Option.some_bind]
                  exact register_equiv b1 b2 name (make_name s2 name) hrel
            | StructDecl =>
              have hrel := translate_struct_equiv s1 s2 name (make_name s2 name)
                (CEntity.mk EntityKind.StructDecl (some name) ecmt ech ers eargs ety ev eu) h
              cases he1 : translate_struct s1 name (make_name s2 name)
                  (CEntity.mk EntityKind.StructDecl (some name) ecmt ech ers eargs ety ev eu) with
              | none =>
                cases he2 : translate_struct s2 name (make_name s2 name)
                    (CEntity.mk EntityKind.StructDecl (some name) ecmt ech ers eargs ety ev eu) with
                | none => exact trivial
                | some b2 => rw [he1, he2] at hrel; exact hrel.elim
              | some b1 =>
                cases he2 : translate_struct s2 name (make_name s2 name)
                    (CEntity.mk EntityKind.StructDecl (some name) ecmt ech ers eargs ety ev eu) with
                | none => rw [he1, he2] at hrel; exact hrel.elim
                | some b2 =>
                  rw [he1, he2] at hrel
                  simp only [Option.bind_eq_bind, Option.some_bind]
                  exact register_equiv b1 b2 name (make_name s2 name) hrel
            | TypedefDecl =>
              have hrel := translate_typedef_equiv s1 s2 name (make_name s2 name)
                (CEntity.mk EntityKind.TypedefDecl (some name) ecmt ech ers eargs ety ev eu) h
              cases he1 : translate_typedef s1 name (make_name s2 name)
                  (CEntity.mk EntityKind.TypedefDecl (some name) ecmt ech ers eargs ety ev eu) with
              | none =>
                cases he2 : translate_typedef s2 name (make_name s2 name)
                    (CEntity.mk EntityKind.TypedefDecl (some name) ecmt ech ers eargs ety ev eu) with
                | none => exact trivial
                | some r2 => rw [he1, he2] at hrel; exact hrel.elim
              | some r1 =>
                cases he2 : translate_typedef s2 name (make_name s2 name)
                    (CEntity.mk EntityKind.TypedefDecl (some name) ecmt ech ers eargs ety ev eu) with
                | none => rw [he1, he2] at hrel; exact hrel.elim
                | some r2 =>
                  rw [he1, he2] at hrel
                  simp only [Option.bind_eq_bind, Option.some_bind]
                  rw [hrel.1]
                  cases hr2b : r2.1 with
                  | true =>
                    simp only [if_true]
                    exact register_equiv r1.2 r2.2 name (make_name s2 name) hrel.2
                  | false =>
                    simp only [Bool.false_eq_true, if_false]
                    exact hrel.2
            | FunctionDecl => exact h
            | FieldDecl => exact h
            | EnumConstantDecl => exact h
            | Other s => exact h

theorem parse_function_arg_equiv (fuel : Nat) (xn : String) (p1 p2 : Translator × Nat)
    (arg : CEntity) (h : StEquiv p1.1 p2.1) (hn : p1.2 = p2.2) :
    OptRel (fun (a b : Translator × Nat) => StEquiv a.1 b.1 ∧ a.2 = b.2)
      (parse_function_arg fuel xn p1 arg) (parse_function_arg fuel xn p2 arg) := by
  unfold parse_function_arg
  cases hty : arg.typeOf with
  | none => exact trivial
  | some ty =>
    simp only [Option.bind_eq_bind, Option.some_bind]
    have hparse : OptRel StEquiv (parse_type fuel p1.1 ty) (parse_type fuel p2.1 ty) :=
      parse_type_equiv fuel p1.1 p2.1 ty h
    cases hk : (canonicalType ty).kind
    case Pointer =>
      cases hp : (canonicalType ty).pointee with
      | none => exact trivial
      | some pt =>
        simp only [Option.bind_eq_bind, Option.some_bind]
        cases hpk : pt.kind
        case FunctionPrototype =>
          have hfd : FuncDef.from_type fuel p1.1.typenames pt =
              FuncDef.from_type fuel p2.1.typenames pt :=
            from_type_congr fuel p1.1.typenames p2.1.typenames h.2.2.1 pt
          rw [hfd, hn]
          cases hfd2 : FuncDef.from_type fuel p2.1.typenames pt with
          | none => exact trivial
          | some fd =>
            simp only [Option.bind_eq_bind, Option.some_bind]
            exact ⟨⟨h.1, h.2.1, h.2.2.1, h.2.2.2.1, by rw [h.2.2.2.2.1], h.2.2.2.2.2⟩, rfl⟩
        case FunctionNoPrototype =>
          have hfd : FuncDef.from_type fuel p1.1.typenames pt =
              FuncDef.from_type fuel p2.1.typenames pt :=
            from_type_congr fuel p1.1.typenames p2.1.typenames h.2.2.1 pt
          rw [hfd, hn]
          cases hfd2 : FuncDef.from_type fuel p2.1.typenames pt with
          | none => exact trivial
          | some fd =>
            simp only [Option.bind_eq_bind, Option.some_bind]
            exact ⟨⟨h.1, h.2.1, h.2.2.1, h.2.2.2.1, by rw [h.2.2.2.2.1], h.2.2.2.2.2⟩, rfl⟩
        all_goals {
          cases h1 : parse_type fuel p1.1 ty with
          | none =>
            cases h2 : parse_type fuel p2.1 ty with
            | none => exact trivial
            | some b2 => rw [h1, h2] at hparse; exact hparse.elim
          | some b1 =>
            cases h2 : parse_type fuel p2.1 ty with
            | none => rw [h1, h2] at hparse; exact hparse.elim
            | some b2 =>
              rw [h1, h2] at hparse
              simp only [Option.bind_eq_bind, Option.some_bind]
              exact ⟨hparse, hn⟩
        }
    all_goals {
      cases h1 : parse_type fuel p1.1 ty with
      | none =>
        cases h2 : parse_type fuel p2.1 ty with
        | none => exact trivial
        | some b2 => rw [h1, h2] at hparse; exact hparse.elim
      | some b1 =>
        cases h2 : parse_type fuel p2.1 ty with
        | none => rw [h1, h2] at hparse; exact hparse.elim
        | some b2 =>
          rw [h1, h2] at hparse
          simp only [Option.bind_eq_bind, Option.some_bind]
          exact ⟨hparse, hn⟩
    }

theorem parse_function_equiv (fuel : Nat) (s1 s2 : Translator) (n : String) (e : CEntity)
    (h : StEquiv s1 s2) :
    OptRel StEquiv (parse_function fuel s1 n e) (parse_function fuel s2 n e) := by
  unfold parse_function
  cases hres : e.resultType with
  | none => exact trivial
  | some res =>
    simp only [Option.bind_eq_bind, Option.some_bind]
    cases hargs : e.arguments with
    | none => exact trivial
    | some args =>
      simp only [Option.bind_eq_bind, Option.some_bind]
      have hmn : make_name s1 n = make_name s2 n := by
        unfold make_name
        rw [h.1]
      simp only [hmn]
      have hparse : OptRel StEquiv (parse_type fuel s1 res) (parse_type fuel s2 res) :=
        parse_type_equiv fuel s1 s2 res h
      cases h1 : parse_type fuel s1 res with
      | none =>
        cases h2 : parse_type fuel s2 res with
        | none => exact trivial
        | some b2 => rw [h1, h2] at hparse; exact hparse.elim
      | some b1 =>
        cases h2 : parse_type fuel s2 res with
        | none => rw [h1, h2] at hparse; exact hparse.elim
        | some b2 =>
          rw [h1, h2] at hparse
          simp only [Option.bind_eq_bind, Option.some_bind]
          have hfold : OptRel (fun (a b : Translator × Nat) => StEquiv a.1 b.1 ∧ a.2 = b.2)
              (opt_foldl (parse_function_arg fuel (make_name s2 n)) (b1, 0) args)
              (opt_foldl (parse_function_arg fuel (make_name s2 n)) (b2, 0) args) :=
            opt_foldl_rel _ _ _
              (fun b c a hbc => parse_function_arg_equiv fuel (make_name s2 n) b c a hbc.1 hbc.2)
              args (b1, 0) (b2, 0) ⟨hparse, rfl⟩
          cases hf1 : opt_foldl (parse_function_arg fuel (make_name s2 n)) (b1, 0) args with
          | none =>
            cases hf2 : opt_foldl (parse_function_arg fuel (make_name s2 n)) (b2, 0) args with
            | none => exact trivial
            | some a2 => rw [hf1, hf2] at hfold; exact hfold.elim
          | some a1 =>
            cases hf2 : opt_foldl (parse_function_arg fuel (make_name s2 n)) (b2, 0) args with
            | none => rw [hf1, hf2] at hfold; exact hfold.elim
            | some a2 =>
              rw [hf1, hf2] at hfold
              simp only [Option.bind_eq_bind, Option.some_bind]
              have hfd : FuncDef.from_entity fuel a1.1.typenames e =
                  FuncDef.from_entity fuel a2.1.typenames e :=
                from_entity_congr fuel a1.1.typenames a2.1.typenames hfold.1.2.2.1 e
              rw [hfd]
              cases hfd2 : FuncDef.from_entity fuel a2.1.typenames e with
              | none => exact trivial
              | some fd =>
                simp only [Option.bind_eq_bind, Option.some_bind]
                have hq := hfold.1
                exact ⟨hq.1, hq.2.1, hq.2.2.1, by rw [hq.2.2.2.1], hq.2.2.2.2.1, hq.2.2.2.2.2⟩

theorem pass1_step_equiv (fuel : Nat) (s1 s2 : Translator) (ch : CEntity)
    (h : StEquiv s1 s2) :
    OptRel StEquiv (pass1_step fuel s1 ch) (pass1_step fuel s2 ch) := by
  unfold pass1_step
  cases hn : ch.name with
  | none => exact h
  | some name =>
    simp only []
    have hm : match_name s1 name = match_name s2 name := by
      unfold match_name
      rw [h.1]
    by_cases hb : match_name s1 name = true
    · rw [if_pos hb, if_pos (hm.symm.trans hb)]
      cases hek : ch.kind with
      | FunctionDecl => exact parse_function_equiv fuel s1 s2 name ch h
      | EnumDecl => exact h
      | StructDecl => exact h
      | TypedefDecl => exact h
      | FieldDecl => exact h
      | EnumConstantDecl => exact h
      | Other s => exact h
    · rw [if_neg hb, if_neg (fun hx => hb (hm.trans hx))]
      exact h

theorem pass2_step_equiv (s1 s2 : Translator) (ch : CEntity) (h : StEquiv s1 s2) :
    OptRel StEquiv (pass2_step s1 ch) (pass2_step s2 ch) := by
  unfold pass2_step
  cases hn : ch.name with
  | none => exact h
  | some name =>
    simp only []
    have hm : match_name s1 name = match_name s2 name := by
      unfold match_name
      rw [h.1]
    have hmn : make_name s1 name = make_name s2 name := by
      unfold make_name
      rw [h.1]
    by_cases hb : match_name s1 name = true
    · rw [if_pos hb, if_pos (hm.symm.trans hb)]
      have hx := export_once_equiv s1 s2 name h
      rw [hmn, hx.1]
      by_cases hb2 : (export_once s2 name).1 = true
      · rw [if_pos hb2, if_pos hb2]
        cases hek : ch.kind with
        | EnumDecl =>
          exact translate_enum_equiv (export_once s1 name).2 (export_once s2 name).2
            name (make_name s2 name) ch hx.2
        | FunctionDecl => exact hx.2
        | StructDecl => exact hx.2
        | TypedefDecl => exact hx.2
        | FieldDecl => exact hx.2
        | EnumConstantDecl => exact hx.2
        | Other s => exact hx.2
      · rw [if_neg hb2, if_neg hb2]
        exact hx.2
    · rw [if_neg hb, if_neg (fun hy => hb (hm.trans hy))]
      exact h

theorem translate_equiv (fuel : Nat) (s1 s2 : Translator) (e : CEntity) (h : StEquiv s1 s2) :
    OptRel StEquiv (translate fuel s1 e) (translate fuel s2 e) := by
  unfold translate
  simp only [Option.bind_eq_bind]
  have h0 : StEquiv
      { s1 with coder := (s1.coder.line ("import " ++ sq ++ "dart:ffi" ++ sq ++ ";")).line ("") }
      { s2 with coder := (s2.coder.line ("import " ++ sq ++ "dart:ffi" ++ sq ++ ";")).line ("") } :=
    ⟨h.1, h.2.1, h.2.2.1, h.2.2.2.1, h.2.2.2.2.1, by rw [h.2.2.2.2.2]⟩
  have hf1 := opt_foldl_rel StEquiv (pass1_step fuel) (pass1_step fuel)
    (fun b c a hbc => pass1_step_equiv fuel b c a hbc) e.children
    { s1 with coder := (s1.coder.line ("import " ++ sq ++ "dart:ffi" ++ sq ++ ";")).line ("") }
    { s2 with coder := (s2.coder.line ("import " ++ sq ++ "dart:ffi" ++ sq ++ ";")).line ("") } h0
  cases h1 : opt_foldl (pass1_step fuel)
      { s1 with coder := (s1.coder.line ("import " ++ sq ++ "dart:ffi" ++ sq ++ ";")).line ("") }
      e.children with
  | none =>
    cases h2 : opt_foldl (pass1_step fuel)
        { s2 with coder := (s2.coder.line ("import " ++ sq ++ "dart:ffi" ++ sq ++ ";")).line ("") }
        e.children with
    | none => exact trivial
    | some b2 => rw [h1, h2] at hf1; exact hf1.elim
  | some stA1 =>
    cases h2 : opt_foldl (pass1_step fuel)
        { s2 with coder := (s2.coder.line ("import " ++ sq ++ "dart:ffi" ++ sq ++ ";")).line ("") }
        e.children with
    | none => rw [h1, h2] at hf1; exact hf1.elim
    | some stA2 =>
      rw [h1, h2] at hf1
      simp only [Option.some_bind]
      have hf2 := opt_foldl_rel StEquiv pass2_step pass2_step
        (fun b c a hbc => pass2_step_equiv b c a hbc) e.children stA1 stA2 hf1
      cases h3 : opt_foldl pass2_step stA1 e.children with
      | none =>
        cases h4 : opt_foldl pass2_step stA2 e.children with
        | none => exact trivial
        | some b2 => rw [h3, h4] at hf2; exact hf2.elim
      | some stB1 =>
        cases h4 : opt_foldl pass2_step stA2 e.children with
        | none => rw [h3, h4] at hf2; exact hf2.elim
        | some stB2 =>
          rw [h3, h4] at hf2
          simp only [Option.some_bind]
          have hcb : class_body stB1.options.class_name stB1.calls stB1.callbacks =
              class_body stB2.options.class_name stB2.calls stB2.callbacks := by
            rw [hf2.1, hf2.2.2.2.1, hf2.2.2.2.2.1]
          rw [hcb]
          cases h5 : class_body stB2.options.class_name stB2.calls stB2.callbacks with
          | none => exact trivial
          | some body =>
            simp only [Option.some_bind]
            refine ⟨hf2.1, hf2.2.1, hf2.2.2.1, hf2.2.2.2.1, hf2.2.2.2.2.1, ?_⟩
            rw [hf2.2.2.2.2.2, hf2.1]

/-- C8: translation output is a function of the input AST and configuration
alone — two translator states whose registries have the same contents (in any
representation order) and otherwise equal components render byte-identical
output, so the rendered text cannot depend on hash-set or hash-map iteration
order (the code only ever queries membership and lookup). -/
theorem c8_deterministic (fuel rfuel : Nat) (s1 s2 : Translator) (e : CEntity)
    (h : StEquiv s1 s2) :
    (translate fuel s1 e).map (fun st => render_coder rfuel st.coder) =
    (translate fuel s2 e).map (fun st => render_coder rfuel st.coder) := by
  have hrel := translate_equiv fuel s1 s2 e h
  cases h1 : translate fuel s1 e with
  | none =>
    cases h2 : translate fuel s2 e with
    | none => rfl
    | some b => rw [h1, h2] at hrel; exact hrel.elim
  | some a =>
    cases h2 : translate fuel s2 e with
    | none => rw [h1, h2] at hrel; exact hrel.elim
    | some b =>
      rw [h1, h2] at hrel
      show some (render_coder rfuel a.coder) = some (render_coder rfuel b.coder)
      rw [hrel.2.2.2.2.2]

theorem c8_witness :
    (translate 10 exS1 exRootStruct).map (fun st => render_coder 20 st.coder) =
    (translate 10 exS2 exRootStruct).map (fun st => render_coder 20 st.coder) := by
  refine c8_deterministic 10 20 exS1 exS2 exRootStruct ⟨rfl, ?_, fun n => rfl, rfl, rfl, rfl⟩
  intro n
  show (["A", "B"] : List String).contains n = (["B", "A"] : List String).contains n
  simp [List.contains_cons]
  exact Bool.or_comm _ _

end C4D
